import Mathlib

/-! Hit accumulation in the B4c nanodosimetry application.

A shallow embedding of the application code of the three B4c variants:
the hit record (`CalorHit.hh`), the sensitive-detector callbacks
(`CalorimeterSD.cc`, macroscopic and multi-region variants), the event
action (`EventAction.cc`) and the physics list (`PhysicsList.cc`).

Conventions of the embedding.

* `G4double` quantities are rational numbers: sums and quotients are exact.
  Where the rounding of the sums decides a statement, the hits are embedded a
  second time with IEEE 754 binary64 addition (`Binary64`, `DoubleHit`).
* The ion-yield accumulator `fIonYield` is a `G4int`; every addition to it is
  reduced to the signed 32-bit range (`wrapG4int`).
* `G4int` quantities that count objects held in memory (the number of cells,
  the secondaries found in one step) are plain integers.
* A hits collection is the list of the hits it owns, in insertion order; a
  pointer into the collection is an index into that list.
* Files and the console are the lists of what was written to them; a row of
  `data.txt` is its separator and its three values, not their text.
-/

namespace B4c

/-! ## CalorHit.hh -/

/-- Reduction of an integer to the range of `G4int` (signed, 32 bit, two's complement). -/
def wrapG4int (x : Int) : Int :=
  (x + 2147483648) % 4294967296 - 2147483648

/-- The hit record of `CalorHit.hh`, lines 75-79; a freshly constructed hit holds zeros. -/
structure CalorHit where
  fEdep : ℚ := 0
  fTrackLength : ℚ := 0
  fIonYield : Int := 0
deriving DecidableEq

namespace CalorHit

/-- `CalorHit::Add`, lines 112-116. -/
def Add (h : CalorHit) (de dl : ℚ) (dnIon : Int) : CalorHit :=
  { fEdep := h.fEdep + de
    fTrackLength := h.fTrackLength + dl
    fIonYield := wrapG4int (h.fIonYield + dnIon) }

/-- `CalorHit::GetEdep`, lines 119-121. -/
def GetEdep (h : CalorHit) : ℚ := h.fEdep

/-- `CalorHit::GetTrackLength`, lines 124-127. -/
def GetTrackLength (h : CalorHit) : ℚ := h.fTrackLength

/-- `CalorHit::GetIonYield`, lines 129-131. -/
def GetIonYield (h : CalorHit) : Int := h.fIonYield

end CalorHit

/-! ## Toolkit data read by the callbacks -/

/-- A secondary track as far as `ProcessHits` looks at it: the name of its
creator process (`none` when `GetCreatorProcess()` is null) and the name of
its particle definition. -/
structure G4Track where
  creatorProcessName : Option String
  particleName : String
deriving DecidableEq

/-- A step as far as `ProcessHits` looks at it. -/
structure G4Step where
  /-- Value of `GetTotalEnergyDeposit()`, internal units. -/
  totalEnergyDeposit : ℚ
  /-- Value of `GetTrack()->GetDefinition()->GetPDGCharge()`. -/
  pdgCharge : ℚ
  /-- Value of `GetStepLength()`. -/
  stepLength : ℚ
  /-- Components x, y, z of `GetPreStepPoint()->GetPosition()`. -/
  posX : ℚ
  posY : ℚ
  posZ : ℚ
  /-- Value of `GetPreStepPoint()->GetPhysicalVolume()->GetName()`. -/
  preStepVolumeName : String
  /-- Content of `GetSecondaryInCurrentStep()`. -/
  secondaryInCurrentStep : List G4Track
  /-- Value of `GetPreStepPoint()->GetTouchable()->GetReplicaNumber(1)`. -/
  replicaNumber : Int

/-- Unit constants of the toolkit (CLHEP system of units: MeV = 1, mm = 1). -/
def keV : ℚ := 1 / 1000

/-- The electronvolt in internal units. -/
def eV : ℚ := 1 / 1000000

/-- The nanometre in internal units. -/
def nm : ℚ := 1 / 1000000

/-- Position of the first occurrence of `needle` in `hay`, as `std::string::find`
returns it; `none` stands for `npos`. -/
def find (needle : List Char) : List Char → Option Nat
  | [] => if needle.isPrefixOf [] then some 0 else none
  | c :: rest =>
    if needle.isPrefixOf (c :: rest) then some 0
    else (find needle rest).map (· + 1)

/-- The condition of `CalorimeterSD.cc` lines 126-128 (macroscopic) and
100-102 (multi-region) on one secondary. The conjunction short-circuits: the
process name exists only under a non-null creator process. -/
def isIonisationElectron (sec : G4Track) : Bool :=
  match sec.creatorProcessName with
  | none => false
  | some processName =>
    (find "Ioni".toList processName.toList).isSome && sec.particleName == "e-"

/-- The loop over the secondaries, lines 125-131 / 99-105. -/
def countLoop : List G4Track → Int → Int
  | [], nIon => nIon
  | sec :: rest, nIon =>
    if isIonisationElectron sec then countLoop rest (nIon + 1) else countLoop rest nIon

/-- The ionization counter, lines 121-132 (macroscopic) and 95-106 (multi-region). -/
def ionizationCount (step : G4Step) : Int :=
  if step.preStepVolumeName == "SensitiveDetector" then
    countLoop step.secondaryInCurrentStep 0
  else 0

/-- The property the ionization counter is meant to count, in words: the
secondary has a creator process, the name of that process contains the
substring "Ioni", and the particle is named exactly "e-". -/
def CountsAsIonisation (sec : G4Track) : Prop :=
  ∃ processName, sec.creatorProcessName = some processName ∧
    "Ioni".toList <:+: processName.toList ∧ sec.particleName = "e-"

instance (sec : G4Track) : Decidable (CountsAsIonisation sec) :=
  match h : sec.creatorProcessName with
  | none => isFalse (fun ⟨_, h1, _⟩ => by simp [h] at h1)
  | some processName =>
    if h2 : "Ioni".toList <:+: processName.toList ∧ sec.particleName = "e-" then
      isTrue ⟨processName, h, h2⟩
    else
      isFalse (fun ⟨other, h1, h3⟩ => by
        rw [h] at h1
        cases h1
        exact h2 h3)

/-! ## CalorimeterSD.cc -/

/-- The two variants whose `CalorimeterSD.cc` and `EventAction.cc` are modelled. -/
inductive Variant where
  | macroscopic
  | multiple
deriving DecidableEq

/-- Ways in which a callback fails to return. -/
inductive Fault where
  /-- `G4Exception(..., code, FatalException, ...)`: the run is aborted. -/
  | fatalException (code : String)
  /-- A hit pointer read outside the collection is dereferenced. -/
  | invalidAccess
deriving DecidableEq

/-- The sensitive detector: the number of cells given to the constructor and
the hits collection `fHitsCollection` of the current event. -/
structure CalorimeterSD where
  fNofCells : Int
  fHitsCollection : List CalorHit

/-- The loop of `Initialize` (lines 76-78 / 72-74): `n` more iterations, each
inserting a new hit at the end of the collection. -/
def insertHits : Nat → List CalorHit → List CalorHit
  | 0, hc => hc
  | n + 1, hc => insertHits n (hc ++ [({} : CalorHit)])

/-- `CalorimeterSD::Initialize`: a new, empty collection replaces the old one
and receives one hit for every `i` with `0 ≤ i < fNofCells + 1`. The
registration of the collection with the event (lines 70-72 / 66-68) is
modelled by `eventAtEnd`. -/
def CalorimeterSD.Initialize (sd : CalorimeterSD) : CalorimeterSD :=
  { sd with fHitsCollection := insertHits (sd.fNofCells + 1).toNat [] }

/-- `(*fHitsCollection)[i]` for a `G4int` index: the hit stored at `i`, `none`
when no hit of the collection lies at that index. -/
def hitAt (hc : List CalorHit) (i : Int) : Option CalorHit :=
  if 0 ≤ i then hc[i.toNat]? else none

/-- The call `p->Add(de, dl, dnIon)` through the pointer to the hit at index `i`. -/
def addAt : List CalorHit → Nat → ℚ → ℚ → Int → List CalorHit
  | [], _, _, _, _ => []
  | h :: rest, 0, de, dl, dnIon => h.Add de dl dnIon :: rest
  | h :: rest, i + 1, de, dl, dnIon => h :: addAt rest i de dl dnIon

/-- The local `edep` of `ProcessHits`: macroscopic line 89, multi-region line 85. -/
def energyDeposit : Variant → G4Step → ℚ
  | .macroscopic, step => step.totalEnergyDeposit / keV
  | .multiple, step => step.totalEnergyDeposit

/-- The local `stepLength` of `ProcessHits`, lines 92-95 / 88-91. -/
def effectiveStepLength (step : G4Step) : ℚ :=
  if step.pdgCharge ≠ 0 then step.stepLength else 0

/-- One line of the run's track file written by the macroscopic `ProcessHits`. -/
structure TrackLine where
  eventID : Int
  z : ℚ
  x : ℚ
  y : ℚ
  edep : ℚ
deriving DecidableEq

/-- What `ProcessHits` writes to the run's output file: macroscopic lines
97-118; the multi-region variant writes nothing. -/
def trackFileOutput : Variant → Int → G4Step → List TrackLine
  | .macroscopic, eventID, step =>
    let edep := step.totalEnergyDeposit / keV
    if edep > 0 then
      [{ eventID := eventID, z := step.posZ / nm, x := step.posX / nm,
         y := step.posY / nm, edep := edep }]
    else []
  | .multiple, _, _ => []

/-- Outcome of a `ProcessHits` call that returns. -/
structure ProcessResult where
  /-- The returned `G4bool`. -/
  value : Bool
  /-- The detector after the call. -/
  sd : CalorimeterSD
  /-- Lines written to the track file by the call. -/
  written : List TrackLine

/-- `CalorimeterSD::ProcessHits` (macroscopic lines 85-161, multi-region lines
81-215); `eventID` is the ID of the current event of the event manager. -/
def CalorimeterSD.ProcessHits (v : Variant) (eventID : Int) (sd : CalorimeterSD)
    (step : G4Step) : Except Fault ProcessResult :=
  let edep := energyDeposit v step
  let stepLength := effectiveStepLength step
  let written := trackFileOutput v eventID step
  let nIon := ionizationCount step
  if edep = 0 ∧ stepLength = 0 then
    .ok { value := false, sd := sd, written := written }
  else
    let layerNumber := step.replicaNumber
    match hitAt sd.fHitsCollection layerNumber with
    | none => .error (.fatalException "MyCode0004")
    | some _ =>
      let last := sd.fHitsCollection.length - 1
      if last < sd.fHitsCollection.length then
        let hc1 := addAt sd.fHitsCollection layerNumber.toNat edep stepLength nIon
        let hc2 := addAt hc1 last edep stepLength nIon
        .ok { value := true, sd := { sd with fHitsCollection := hc2 }, written := written }
      else .error .invalidAccess

/-- The calls the toolkit makes on the detector for the steps of one event,
in order; the run stops at the first call that does not return. -/
def processSteps (v : Variant) (eventID : Int) :
    CalorimeterSD → List G4Step → Except Fault CalorimeterSD
  | sd, [] => .ok sd
  | sd, step :: rest =>
    match sd.ProcessHits v eventID step with
    | .error e => .error e
    | .ok r => processSteps v eventID r.sd rest

/-- One event on the detector: `Initialize`, then `ProcessHits` for every step. -/
def runEvent (v : Variant) (eventID : Int) (sd : CalorimeterSD) (steps : List G4Step) :
    Except Fault CalorimeterSD :=
  processSteps v eventID sd.Initialize steps

/-- The steps that `ProcessHits` does not ignore (the negation of the test of
macroscopic line 137 / multi-region line 191). -/
def isRecorded (v : Variant) (step : G4Step) : Bool :=
  !(decide (energyDeposit v step = 0) && decide (effectiveStepLength step = 0))

/-- The hit for the totals: the last hit of the collection. -/
def totalHit (sd : CalorimeterSD) : Option CalorHit :=
  sd.fHitsCollection[sd.fHitsCollection.length - 1]?

/-- The cell hits: the hits at indices `0 .. fNofCells - 1`. -/
def cellHits (sd : CalorimeterSD) : List CalorHit :=
  sd.fHitsCollection.take sd.fNofCells.toNat

/-- The collection after a step that `ProcessHits` records (lines 153-158 /
207-212): `Add` through the pointer to the cell hit, then `Add` through the
pointer to the last hit. -/
def recordStep (v : Variant) (hc : List CalorHit) (step : G4Step) : List CalorHit :=
  addAt
    (addAt hc step.replicaNumber.toNat (energyDeposit v step) (effectiveStepLength step)
      (ionizationCount step))
    (hc.length - 1) (energyDeposit v step) (effectiveStepLength step) (ionizationCount step)

/-- The collection after one step: recorded steps are added, ignored steps
leave it as it is. -/
def stepEffect (v : Variant) (hc : List CalorHit) (step : G4Step) : List CalorHit :=
  if isRecorded v step then recordStep v hc step else hc

/-- Sum of the ionization counts of the steps that `ProcessHits` records. -/
def recordedIonSum (v : Variant) (steps : List G4Step) : Int :=
  ((steps.filter (isRecorded v)).map ionizationCount).sum

/-! ## EventAction.cc -/

/-- An event as far as the event action looks at it: its ID and the table
`GetHCofThisEvent()->GetHC(id)` (`none` when that pointer is null). -/
structure G4Event where
  eventID : Int
  hitsCollection : Int → Option (List CalorHit)

/-- The event at its end: `Initialize` registered the detector's collection
under `hcID` (lines 70-72 / 66-68), and the table holds a pointer to that
same collection, so the event shows the hits as `ProcessHits` left them. -/
def eventAtEnd (eventID hcID : Int) (sd : CalorimeterSD) : G4Event :=
  { eventID := eventID
    hitsCollection := fun id => if id = hcID then some sd.fHitsCollection else none }

/-- One data row of `data.txt`: the separator used and the three values streamed. -/
structure DataRow where
  separator : String
  eventID : Int
  energy : ℚ
  ionYield : Int
deriving DecidableEq

/-- A line of `data.txt`. -/
inductive FileLine where
  | header (text : String)
  | row (r : DataRow)
deriving DecidableEq

/-- A message on the console. -/
inductive ConsoleLine where
  /-- The per-event summary, lines 115-121 / 154-160. -/
  | summary (eventID : Int) (edep trackLength : ℚ)
  /-- The message "Error opening file for writing!". -/
  | fileError
deriving DecidableEq

/-- Everything the event action writes to. -/
structure Outputs where
  console : List ConsoleLine
  /-- Calls `FillH1(id, value)` in order. -/
  histograms : List (Nat × ℚ)
  /-- Rows added to the ntuple: columns 0 and 1. -/
  ntuple : List (ℚ × ℚ)
  /-- Content of `data.txt`. -/
  dataTxt : List FileLine

/-- The event action object; `fSensitiveDetectorHCID` caches the collection ID. -/
structure EventAction where
  fSensitiveDetectorHCID : Int

/-- The header line of `data.txt`: macroscopic line 88, multi-region line 110. -/
def headerLine : Variant → String
  | .macroscopic => "EventID;tEnergy(keV);IonYield\n"
  | .multiple => "EventID\tEnergy_eV\tIonYield\n"

/-- The separator between the fields of a row: lines 145-147 / 191-193. -/
def rowSeparator : Variant → String
  | .macroscopic => ";"
  | .multiple => "\t"

/-- The unit the stored energy is divided by for the row: `CLHEP::keV`
(macroscopic line 146), `CLHEP::eV` (multi-region line 192). -/
def rowUnit : Variant → ℚ
  | .macroscopic => keV
  | .multiple => eV

/-- `EventAction::GetHitsCollection`, lines 61-77. -/
def EventAction.GetHitsCollection (hcID : Int) (event : G4Event) :
    Except Fault (List CalorHit) :=
  match event.hitsCollection hcID with
  | none => .error (.fatalException "MyCode0003")
  | some hitsCollection => .ok hitsCollection

/-- `EventAction::BeginOfEventAction` (lines 82-91 / 104-113) on the content
of `data.txt`; the stream opened with `std::ios::trunc` is taken to open. -/
def EventAction.BeginOfEventAction (v : Variant) (event : G4Event)
    (dataTxt : List FileLine) : List FileLine :=
  if event.eventID = 0 then [.header (headerLine v)] else dataTxt

/-- `EventAction::EndOfEventAction` (lines 93-156 / 115-217). `collectionID` is
what the SD manager answers for "SensitiveDetectorHitsCollection",
`printModulo` the run manager's print progress, `fileOpens` whether
`data.txt` can be opened for appending. -/
def EventAction.EndOfEventAction (v : Variant) (collectionID printModulo : Int)
    (fileOpens : Bool) (ea : EventAction) (event : G4Event) (out : Outputs) :
    Except Fault (EventAction × Outputs) :=
  let hcID := if ea.fSensitiveDetectorHCID = -1 then collectionID else ea.fSensitiveDetectorHCID
  match EventAction.GetHitsCollection hcID event with
  | .error e => .error e
  | .ok hc =>
    match hc[0]? with
    | none => .error .invalidAccess
    | some hit =>
      let eventID := event.eventID
      let console1 :=
        if printModulo > 0 ∧ Int.tmod eventID printModulo = 0 then
          out.console ++ [.summary eventID hit.GetEdep hit.GetTrackLength]
        else out.console
      let histograms := out.histograms ++ [(0, hit.GetEdep), (1, hit.GetTrackLength)]
      let ntuple := out.ntuple ++ [(hit.GetEdep, hit.GetTrackLength)]
      let row : DataRow :=
        { separator := rowSeparator v, eventID := eventID,
          energy := hit.GetEdep / rowUnit v, ionYield := hit.GetIonYield }
      if fileOpens then
        .ok ({ fSensitiveDetectorHCID := hcID },
             { console := console1, histograms := histograms, ntuple := ntuple,
               dataTxt := out.dataTxt ++ [.row row] })
      else
        .ok ({ fSensitiveDetectorHCID := hcID },
             { console := console1 ++ [.fileError], histograms := histograms,
               ntuple := ntuple, dataTxt := out.dataTxt })

/-- The `N` of `ConstructSDandField` (macroscopic `DetectorConstruction.cc`
lines 256-259): the detector is built with one cell. -/
def constructedSD : CalorimeterSD :=
  { fNofCells := 1, fHitsCollection := [] }

/-- Sum of the values `GetTotalEnergyDeposit()` of a list of steps. -/
def totalEnergyDepositSum (steps : List G4Step) : ℚ :=
  (steps.map (·.totalEnergyDeposit)).sum

/-! ## A run of events -/

/-- Sum of `GetTotalEnergyDeposit()` over the steps reported in layer 0. -/
def layerZeroDepositSum (steps : List G4Step) : ℚ :=
  ((steps.filter (fun step => decide (step.replicaNumber = 0))).map
    (·.totalEnergyDeposit)).sum

/-- The collection ID that `EndOfEventAction` uses (lines 96-98 / 118-120). -/
def hitsCollectionIDUsed (ea : EventAction) (collectionID : Int) : Int :=
  if ea.fSensitiveDetectorHCID = -1 then collectionID else ea.fSensitiveDetectorHCID

/-- The hit at index 0 of the collection an event holds under `hcID`. -/
def hitZero (hcID : Int) (event : G4Event) : Option CalorHit :=
  match event.hitsCollection hcID with
  | none => none
  | some hc => hc[0]?

/-- The name of the energy column in the header line. -/
def energyColumnName : Variant → String
  | .macroscopic => "tEnergy(keV)"
  | .multiple => "Energy_eV"

/-- The row that `EndOfEventAction` streams for an event whose hit at index 0
is `hit` (lines 145-147 / 191-193). -/
def rowFor (v : Variant) (eventID : Int) (hit : CalorHit) : FileLine :=
  .row { separator := rowSeparator v, eventID := eventID,
         energy := hit.GetEdep / rowUnit v, ionYield := hit.GetIonYield }

/-- The events of a run on one thread, in order: the toolkit calls
`BeginOfEventAction` and then `EndOfEventAction` for each; the run stops at the
first call that does not return. -/
def runEvents (v : Variant) (collectionID printModulo : Int) (fileOpens : Bool) :
    EventAction → List G4Event → Outputs → Except Fault (EventAction × Outputs)
  | ea, [], out => .ok (ea, out)
  | ea, event :: rest, out =>
    let begun : Outputs :=
      { out with dataTxt := EventAction.BeginOfEventAction v event out.dataTxt }
    match EventAction.EndOfEventAction v collectionID printModulo fileOpens ea event begun with
    | .error e => .error e
    | .ok (ea2, out2) => runEvents v collectionID printModulo fileOpens ea2 rest out2

/-- The events carry the IDs `k, k + 1, ...` in order, and `hits` lists the hit
at index 0 of each of them. -/
def NumberedFrom (hcID : Int) : Int → List G4Event → List CalorHit → Prop
  | _, [], [] => True
  | k, event :: events, hit :: hits =>
    event.eventID = k ∧ hitZero hcID event = some hit ∧ NumberedFrom hcID (k + 1) events hits
  | _, _, _ => False

/-- The rows for events `k, k + 1, ...` with the given hits at index 0. -/
def rowsFrom (v : Variant) : Int → List CalorHit → List FileLine
  | _, [] => []
  | k, hit :: hits => rowFor v k hit :: rowsFrom v (k + 1) hits

/-! ## PhysicsList.cc -/

/-- The electromagnetic physics constructors that `PhysicsList.cc` instantiates. -/
inductive EmPhysics where
  | G4EmDNAPhysics
  | G4EmDNAPhysics_option1
  | G4EmDNAPhysics_option2
  | G4EmDNAPhysics_option3
  | G4EmDNAPhysics_option4
  | G4EmDNAPhysics_option5
  | G4EmDNAPhysics_option6
  | G4EmDNAPhysics_option7
  | G4EmDNAPhysics_option8
  | G4EmLivermorePhysics
  | G4EmPenelopePhysics
  | G4EmStandardPhysics_option4
deriving DecidableEq

/-- An EM physics object on the heap: the constructor it was made with and
its address. -/
structure EmPhysicsObject where
  kind : EmPhysics
  address : Nat
deriving DecidableEq

/-- The physics list object, with the heap bookkeeping and the console output
its methods produce. -/
structure PhysicsList where
  fEmName : String
  fEmPhysicsList : EmPhysicsObject
  verboseLevel : Int
  /-- Addresses of the objects deleted so far. -/
  deletedObjects : List Nat
  /-- Number of objects allocated so far; a new object gets this address. -/
  allocatedObjects : Nat
  /-- Lines written to `G4cout`. -/
  console : List String
deriving DecidableEq

/-- `PhysicsList::PhysicsList`, lines 87-96. The constructor does not touch
`fEmName`; its value in a fresh object is fixed by the class declaration and
enters as `initialName`. -/
def PhysicsList.construct (initialName : String) : PhysicsList :=
  { fEmName := initialName
    fEmPhysicsList := { kind := .G4EmDNAPhysics_option4, address := 0 }
    verboseLevel := 1
    deletedObjects := []
    allocatedObjects := 1
    console := [] }

/-- The chain of comparisons of `AddPhysicsList`, lines 220-289: the
constructor chosen for a name, `none` when the final `else` is reached. -/
def emPhysicsFor (name : String) : Option EmPhysics :=
  if name == "dna" then some .G4EmDNAPhysics
  else if name == "dna_opt1" then some .G4EmDNAPhysics_option1
  else if name == "dna_opt2" then some .G4EmDNAPhysics_option2
  else if name == "dna_opt3" then some .G4EmDNAPhysics_option3
  else if name == "dna_opt4" then some .G4EmDNAPhysics_option4
  else if name == "dna_opt5" then some .G4EmDNAPhysics_option5
  else if name == "dna_opt6" then some .G4EmDNAPhysics_option6
  else if name == "dna_opt7" then some .G4EmDNAPhysics_option7
  else if name == "dna_opt8" then some .G4EmDNAPhysics_option8
  else if name == "liv" then some .G4EmLivermorePhysics
  else if name == "pene" then some .G4EmPenelopePhysics
  else if name == "emstandard_opt4" then some .G4EmStandardPhysics_option4
  else if name == "emStd4_hadCustom" then some .G4EmStandardPhysics_option4
  else if name == "penelope_hadCustom" then some .G4EmPenelopePhysics
  else none

/-- `PhysicsList::AddPhysicsList`, lines 212-296. -/
def PhysicsList.AddPhysicsList (pl : PhysicsList) (name : String) : PhysicsList :=
  let console1 :=
    if pl.verboseLevel > -1 then
      pl.console ++ ["PhysicsList::AddPhysicsList: <" ++ name ++ ">"]
    else pl.console
  if name == pl.fEmName then { pl with console := console1 }
  else
    match emPhysicsFor name with
    | some kind =>
      { pl with
        fEmName := name
        fEmPhysicsList := { kind := kind, address := pl.allocatedObjects }
        deletedObjects := pl.deletedObjects ++ [pl.fEmPhysicsList.address]
        allocatedObjects := pl.allocatedObjects + 1
        console := console1 }
    | none =>
      { pl with
        console := console1 ++ ["PhysicsList::AddPhysicsList: <" ++ name ++ "> is not defined"] }

/-- What `ConstructProcess` and its helpers do, call by call. -/
inductive ProcessAction where
  /-- The call `AddTransportation()`. -/
  | AddTransportation
  /-- The call `fEmPhysicsList->ConstructProcess()` on an object of this kind. -/
  | emConstructProcess (kind : EmPhysics)
  /-- A call `ph->RegisterProcess(process, particle)`. -/
  | RegisterProcess (process : String) (particle : String)
  /-- The call `hadElastic->ConstructProcess()` on a new `G4HadronElasticPhysics`. -/
  | hadronElasticConstructProcess
deriving DecidableEq

/-- The body of the loop of lines 165-197 for one particle. -/
def hadronicProcessesFor (particleName : String) : List ProcessAction :=
  if particleName == "proton" then
    [.RegisterProcess "G4hMultipleScattering" particleName,
     .RegisterProcess "G4CoulombScattering" particleName,
     .RegisterProcess "G4hIonisation" particleName,
     .hadronElasticConstructProcess,
     .RegisterProcess "protonInelastic" particleName]
  else []

/-- The loop over the particle iterator, lines 162-197. -/
def hadronicLoop : List String → List ProcessAction
  | [] => []
  | particleName :: rest => hadronicProcessesFor particleName ++ hadronicLoop rest

/-- `PhysicsList::AddTrackingCut`, lines 300-317. -/
def AddTrackingCut : List String → List ProcessAction
  | [] => []
  | particleName :: rest =>
    (if particleName == "e-" then [.RegisterProcess "G4UserSpecialCuts" particleName] else [])
      ++ AddTrackingCut rest

/-- `PhysicsList::AddMaxStepSize`, lines 321-338. -/
def AddMaxStepSize : List String → List ProcessAction
  | [] => []
  | particleName :: rest =>
    (if particleName == "e-" then [.RegisterProcess "G4StepLimiter" particleName] else [])
      ++ AddMaxStepSize rest

/-- The test of line 151 on `fEmName`. -/
def hasHadCustom (name : String) : Bool :=
  (find "hadCustom".toList name.toList).isSome

/-- The user-defined hadronic part of `ConstructProcess`, lines 151-198. -/
def userHadronicProcesses (pl : PhysicsList) (particles : List String) : List ProcessAction :=
  if hasHadCustom pl.fEmName then hadronicLoop particles else []

/-- `PhysicsList::ConstructProcess`, lines 138-208; `particles` lists the names
of the particles the particle iterator runs through. -/
def PhysicsList.ConstructProcess (pl : PhysicsList) (particles : List String) :
    List ProcessAction :=
  [.AddTransportation, .emConstructProcess pl.fEmPhysicsList.kind]
    ++ userHadronicProcesses pl particles
    ++ AddTrackingCut particles
    ++ AddMaxStepSize particles

/-- The table of the 14 recognised names and the EM physics list each one
selects, as the documentation states it. -/
def physicsTable : List (String × EmPhysics) :=
  [("dna", .G4EmDNAPhysics),
   ("dna_opt1", .G4EmDNAPhysics_option1),
   ("dna_opt2", .G4EmDNAPhysics_option2),
   ("dna_opt3", .G4EmDNAPhysics_option3),
   ("dna_opt4", .G4EmDNAPhysics_option4),
   ("dna_opt5", .G4EmDNAPhysics_option5),
   ("dna_opt6", .G4EmDNAPhysics_option6),
   ("dna_opt7", .G4EmDNAPhysics_option7),
   ("dna_opt8", .G4EmDNAPhysics_option8),
   ("liv", .G4EmLivermorePhysics),
   ("pene", .G4EmPenelopePhysics),
   ("penelope_hadCustom", .G4EmPenelopePhysics),
   ("emstandard_opt4", .G4EmStandardPhysics_option4),
   ("emStd4_hadCustom", .G4EmStandardPhysics_option4)]

/-- The 14 recognised names. -/
def recognisedNames : List String :=
  physicsTable.map (·.1)

/-- The last name of a sequence of `AddPhysicsList` calls that is a recognised
name; `current` when there is none. -/
def lastAcceptedName : String → List String → String
  | current, [] => current
  | current, name :: rest =>
    lastAcceptedName (if name ∈ recognisedNames then name else current) rest

/-- The five calls that make up the user-defined hadronic processes of the proton. -/
def protonHadronicActions : List ProcessAction :=
  hadronicProcessesFor "proton"

/-! ## Sample steps -/

/-- A step of a neutral particle that deposits no energy and has one
ionization electron among its secondaries. -/
def neutralIonisingStep : G4Step :=
  { totalEnergyDeposit := 0, pdgCharge := 0, stepLength := 5,
    posX := 0, posY := 0, posZ := 0,
    preStepVolumeName := "SensitiveDetector",
    secondaryInCurrentStep :=
      [{ creatorProcessName := some "hydrogen_G4DNAIonisation", particleName := "e-" }],
    replicaNumber := 0 }

/-- A step of an electron in layer 0 that deposits 1 keV (0.001 in internal
units) along a step of length 5 and has one ionization electron among its
secondaries. -/
def electronStep : G4Step :=
  { totalEnergyDeposit := 1 / 1000, pdgCharge := -1, stepLength := 5,
    posX := 0, posY := 0, posZ := 0,
    preStepVolumeName := "SensitiveDetector",
    secondaryInCurrentStep :=
      [{ creatorProcessName := some "e-_G4DNAIonisation", particleName := "e-" }],
    replicaNumber := 0 }

/-- The electron step of `electronStep` reported in replica 1. -/
def electronStepInReplicaOne : G4Step :=
  { electronStep with replicaNumber := 1 }

/-- The outputs at the start of a run, after the header of `data.txt` was written. -/
def outputsAfterHeader (v : Variant) : Outputs :=
  { console := [], histograms := [], ntuple := [], dataTxt := [.header (headerLine v)] }

/-- The hit of an event with one electron step of 1 keV. -/
def firstSampleHit : CalorHit :=
  { fEdep := 1 / 1000, fTrackLength := 5, fIonYield := 1 }

/-- The hit of an event with 3 keV deposited and two ionizations. -/
def secondSampleHit : CalorHit :=
  { fEdep := 3 / 1000, fTrackLength := 7, fIonYield := 2 }

/-- A run of two events, 0 and 1, of a detector with one cell registered
under collection ID 0. -/
def sampleRun : List G4Event :=
  [eventAtEnd 0 0 { fNofCells := 1, fHitsCollection := [firstSampleHit, firstSampleHit] },
   eventAtEnd 1 0 { fNofCells := 1, fHitsCollection := [secondSampleHit, secondSampleHit] }]

/-! ## The guard of the per-event summary -/

/-- The remainder `a % b` of two `G4int` values, truncated towards zero; the
divisor 0 gives no value. -/
def remainderG4int (a b : Int) : Option Int :=
  if b = 0 then none else some (Int.tmod a b)

/-- The condition `( printModulo > 0 ) && ( eventID % printModulo == 0 )` of
lines 114 / 153, evaluated from left to right: the right operand is evaluated
only when the left one is true, and the condition has no value when an
operand that is evaluated has none. -/
def summaryCondition (eventID printModulo : Int) : Option Bool :=
  if printModulo > 0 then
    match remainderG4int eventID printModulo with
    | none => none
    | some r => some (r == 0)
  else some false

/-! ## The hits with G4double as IEEE 754 binary64 -/

/-- A finite binary64 number, written `mantissa · 2 ^ exponent` with an integer
mantissa. -/
structure Binary64 where
  mantissa : Int
  exponent : Int
deriving DecidableEq

namespace Binary64

/-- The rational number a binary64 value stands for. -/
def toRat (x : Binary64) : ℚ := x.mantissa * (2 : ℚ) ^ x.exponent

/-- The representation is that of a finite binary64 number: at most 53
significant bits (or the power of two just above them), exponent within the
subnormal and the overflow bounds. -/
def IsFinite (x : Binary64) : Prop :=
  x.mantissa.natAbs ≤ 2 ^ 53 ∧ -1074 ≤ x.exponent ∧ x.exponent ≤ 970

instance (x : Binary64) : Decidable x.IsFinite := by
  unfold IsFinite
  infer_instance

end Binary64

/-- Number of binary digits of `n`, by halving; `fuel` bounds the number of halvings. -/
def bitLengthAux : Nat → Nat → Nat
  | 0, _ => 0
  | fuel + 1, n => if n = 0 then 0 else bitLengthAux fuel (n / 2) + 1

/-- Number of binary digits of `n` (0 for 0); `n` halvings are always enough. -/
def bitLength (n : Nat) : Nat := bitLengthAux n n

/-- The binary64 number nearest to the exact value `n · 2 ^ e`, ties to the
even mantissa (the default rounding of IEEE 754): a value of at most 53 bits
is kept as it is, a longer one loses its low bits. -/
def roundNearestEven (n : Int) (e : Int) : Binary64 :=
  let a := n.natAbs
  if bitLength a ≤ 53 then { mantissa := n, exponent := e }
  else
    let shift := bitLength a - 53
    let q := a / 2 ^ shift
    let r := a % 2 ^ shift
    let half := 2 ^ (shift - 1)
    let q2 := if r > half ∨ (r = half ∧ q % 2 = 1) then q + 1 else q
    { mantissa := Int.sign n * q2, exponent := e + shift }

/-- The `+` of two `G4double`: the exact sum, formed at the smaller of the two
exponents, rounded to binary64. Sums that overflow to infinity are outside the
embedding. -/
def Binary64.add (x y : Binary64) : Binary64 :=
  let e := if x.exponent ≤ y.exponent then x.exponent else y.exponent
  roundNearestEven
    (x.mantissa * 2 ^ (x.exponent - e).toNat + y.mantissa * 2 ^ (y.exponent - e).toNat) e

/-- The hit record of `CalorHit.hh`, lines 75-79, with its two `G4double`
members as binary64 numbers. -/
structure DoubleHit where
  fEdep : Binary64 := { mantissa := 0, exponent := 0 }
  fTrackLength : Binary64 := { mantissa := 0, exponent := 0 }
  fIonYield : Int := 0
deriving DecidableEq

/-- `CalorHit::Add`, lines 112-116, in binary64 arithmetic. -/
def DoubleHit.Add (h : DoubleHit) (de dl : Binary64) (dnIon : Int) : DoubleHit :=
  { fEdep := h.fEdep.add de
    fTrackLength := h.fTrackLength.add dl
    fIonYield := wrapG4int (h.fIonYield + dnIon) }

/-- A step as `ProcessHits` looks at it, its `G4double` values as binary64 numbers. -/
structure DoubleStep where
  totalEnergyDeposit : Binary64
  pdgCharge : Binary64
  stepLength : Binary64
  preStepVolumeName : String
  secondaryInCurrentStep : List G4Track
  replicaNumber : Int

/-- The sensitive detector with a collection of binary64 hits. -/
structure DoubleSD where
  fNofCells : Int
  fHitsCollection : List DoubleHit
deriving DecidableEq

/-- The loop of `Initialize` (lines 72-74) on binary64 hits. -/
def insertDoubleHits : Nat → List DoubleHit → List DoubleHit
  | 0, hc => hc
  | n + 1, hc => insertDoubleHits n (hc ++ [({} : DoubleHit)])

/-- `CalorimeterSD::Initialize`, multi-region lines 59-75, on binary64 hits. -/
def DoubleSD.Initialize (sd : DoubleSD) : DoubleSD :=
  { sd with fHitsCollection := insertDoubleHits (sd.fNofCells + 1).toNat [] }

/-- The call `p->Add(de, dl, dnIon)` through the pointer to the binary64 hit
at index `i`. -/
def addAtDouble : List DoubleHit → Nat → Binary64 → Binary64 → Int → List DoubleHit
  | [], _, _, _, _ => []
  | h :: rest, 0, de, dl, dnIon => h.Add de dl dnIon :: rest
  | h :: rest, i + 1, de, dl, dnIon => h :: addAtDouble rest i de dl dnIon

/-- `CalorimeterSD::ProcessHits`, multi-region lines 81-215, in binary64
arithmetic: the same statements as `CalorimeterSD.ProcessHits` for the
multi-region variant, with `+=` rounding to binary64. -/
def DoubleSD.ProcessHits (sd : DoubleSD) (step : DoubleStep) : Except Fault (Bool × DoubleSD) :=
  let edep := step.totalEnergyDeposit
  let stepLength : Binary64 :=
    if step.pdgCharge.mantissa ≠ 0 then step.stepLength else { mantissa := 0, exponent := 0 }
  let nIon : Int :=
    if step.preStepVolumeName == "SensitiveDetector" then
      countLoop step.secondaryInCurrentStep 0
    else 0
  if edep.mantissa = 0 ∧ stepLength.mantissa = 0 then .ok (false, sd)
  else
    let layerNumber := step.replicaNumber
    if 0 ≤ layerNumber ∧ layerNumber.toNat < sd.fHitsCollection.length then
      let last := sd.fHitsCollection.length - 1
      let hc1 := addAtDouble sd.fHitsCollection layerNumber.toNat edep stepLength nIon
      let hc2 := addAtDouble hc1 last edep stepLength nIon
      .ok (true, { sd with fHitsCollection := hc2 })
    else .error (.fatalException "MyCode0004")

/-- One event on the binary64 detector: `Initialize`, then `ProcessHits` for
every step, stopping at the first call that does not return. -/
def runDoubleSteps : DoubleSD → List DoubleStep → Except Fault DoubleSD
  | sd, [] => .ok sd
  | sd, step :: rest =>
    match sd.ProcessHits step with
    | .error e => .error e
    | .ok r => runDoubleSteps r.2 rest

/-- One event on the binary64 detector. -/
def runDoubleEvent (sd : DoubleSD) (steps : List DoubleStep) : Except Fault DoubleSD :=
  runDoubleSteps sd.Initialize steps

/-- A step in the layer `layer` of a neutral particle that deposits the
energy `deposit` and has no secondaries. -/
def depositStep (deposit : Binary64) (layer : Int) : DoubleStep :=
  { totalEnergyDeposit := deposit
    pdgCharge := { mantissa := 0, exponent := 0 }
    stepLength := { mantissa := 0, exponent := 0 }
    preStepVolumeName := "SensitiveDetector"
    secondaryInCurrentStep := []
    replicaNumber := layer }

/-- An event on two cells: a deposit of 1 in layer 0, then two deposits of
`5 · 2 ^ (-55)` (about 1.4e-16) in layer 1. -/
def roundingEvent : List DoubleStep :=
  [depositStep { mantissa := 1, exponent := 0 } 0,
   depositStep { mantissa := 5, exponent := -55 } 1,
   depositStep { mantissa := 5, exponent := -55 } 1]

/-! ## List helpers -/

theorem find_isSome_iff (needle hay : List Char) :
    (find needle hay).isSome = true ↔ needle <:+: hay := by
  induction hay with
  | nil =>
    cases needle <;> simp [find]
  | cons c rest ih =>
    rw [List.infix_cons_iff]
    by_cases hp : needle.isPrefixOf (c :: rest) = true
    · simp only [find, hp, if_true, Option.isSome_some, true_iff]
      exact Or.inl (List.isPrefixOf_iff_prefix.mp hp)
    · have hnp : ¬ needle <+: c :: rest := fun h => hp (List.isPrefixOf_iff_prefix.mpr h)
      have hf : find needle (c :: rest) = (find needle rest).map (· + 1) := by
        simp [find, hp]
      rw [hf, Option.isSome_map', ih]
      simp [hnp]

theorem isIonisationElectron_iff (sec : G4Track) :
    isIonisationElectron sec = true ↔ CountsAsIonisation sec := by
  unfold isIonisationElectron CountsAsIonisation
  cases h : sec.creatorProcessName with
  | none => simp
  | some processName =>
    simp [find_isSome_iff]

theorem countLoop_eq (secs : List G4Track) (nIon : Int) :
    countLoop secs nIon = nIon + (secs.countP isIonisationElectron : Int) := by
  induction secs generalizing nIon with
  | nil => simp [countLoop]
  | cons sec rest ih =>
    by_cases h : isIonisationElectron sec = true
    · simp [countLoop, h, ih, List.countP_cons_of_pos]
      ring
    · simp [countLoop, h, ih, List.countP_cons_of_neg]

/-! ## Arithmetic of the ion-yield accumulator -/

theorem wrapG4int_of_inRange (x : Int) (hlo : -2147483648 ≤ x) (hhi : x < 2147483648) :
    wrapG4int x = x := by
  unfold wrapG4int
  rw [Int.emod_eq_of_lt (by omega) (by omega)]
  omega

theorem wrapG4int_zero : wrapG4int 0 = 0 := by decide

theorem wrapG4int_eq_iff (x y : Int) :
    wrapG4int x = wrapG4int y ↔ x % 4294967296 = y % 4294967296 := by
  unfold wrapG4int
  omega

theorem wrapG4int_emod (x : Int) : wrapG4int x % 4294967296 = x % 4294967296 := by
  unfold wrapG4int
  omega

theorem wrapG4int_wrap_add (a b : Int) :
    wrapG4int (wrapG4int a + b) = wrapG4int (a + b) := by
  rw [wrapG4int_eq_iff, Int.add_emod, wrapG4int_emod, ← Int.add_emod]

/-! ## Updates of a hit through its index -/

theorem length_insertHits (n : Nat) (hc : List CalorHit) :
    (insertHits n hc).length = hc.length + n := by
  induction n generalizing hc with
  | zero => simp [insertHits]
  | succ n ih => simp [insertHits, ih]; omega

theorem insertHits_eq (n : Nat) (hc : List CalorHit) :
    insertHits n hc = hc ++ List.replicate n ({} : CalorHit) := by
  induction n generalizing hc with
  | zero => simp [insertHits]
  | succ n ih => simp [insertHits, ih, List.replicate_succ]

theorem length_addAt (hc : List CalorHit) (i : Nat) (de dl : ℚ) (dn : Int) :
    (addAt hc i de dl dn).length = hc.length := by
  induction hc generalizing i with
  | nil => simp [addAt]
  | cons h rest ih => cases i <;> simp [addAt, ih]

theorem getElem?_addAt_self (hc : List CalorHit) (i : Nat) (de dl : ℚ) (dn : Int) :
    (addAt hc i de dl dn)[i]? = (hc[i]?).map (fun h => h.Add de dl dn) := by
  induction hc generalizing i with
  | nil => simp [addAt]
  | cons h rest ih => cases i <;> simp [addAt, ih]

theorem getElem?_addAt_ne (hc : List CalorHit) (i j : Nat) (de dl : ℚ) (dn : Int)
    (hij : i ≠ j) : (addAt hc i de dl dn)[j]? = hc[j]? := by
  induction hc generalizing i j with
  | nil => simp [addAt]
  | cons h rest ih =>
    cases i with
    | zero =>
      cases j with
      | zero => exact absurd rfl hij
      | succ j => simp [addAt]
    | succ i =>
      cases j with
      | zero => simp [addAt]
      | succ j =>
        simp only [addAt, List.getElem?_cons_succ]
        exact ih i j (fun h => hij (by rw [h]))

theorem take_addAt_of_le (hc : List CalorHit) (n i : Nat) (de dl : ℚ) (dn : Int)
    (hni : n ≤ i) : (addAt hc i de dl dn).take n = hc.take n := by
  induction hc generalizing n i with
  | nil => simp [addAt]
  | cons h rest ih =>
    cases n with
    | zero => simp
    | succ n =>
      cases i with
      | zero => omega
      | succ i => simp [addAt, ih n i (by omega)]

theorem take_addAt_of_lt (hc : List CalorHit) (n i : Nat) (de dl : ℚ) (dn : Int)
    (hin : i < n) : (addAt hc i de dl dn).take n = addAt (hc.take n) i de dl dn := by
  induction hc generalizing n i with
  | nil => simp [addAt]
  | cons h rest ih =>
    cases n with
    | zero => omega
    | succ n =>
      cases i with
      | zero => simp [addAt]
      | succ i => simp [addAt, ih n i (by omega)]

theorem sum_fEdep_addAt (hc : List CalorHit) (i : Nat) (de dl : ℚ) (dn : Int)
    (hi : i < hc.length) :
    ((addAt hc i de dl dn).map (·.fEdep)).sum = (hc.map (·.fEdep)).sum + de := by
  induction hc generalizing i with
  | nil => simp at hi
  | cons h rest ih =>
    cases i with
    | zero => simp [addAt, CalorHit.Add]; ring
    | succ i =>
      have hi2 : i < rest.length := by simpa using hi
      simp [addAt, ih i hi2]; ring

theorem sum_fTrackLength_addAt (hc : List CalorHit) (i : Nat) (de dl : ℚ) (dn : Int)
    (hi : i < hc.length) :
    ((addAt hc i de dl dn).map (·.fTrackLength)).sum
      = (hc.map (·.fTrackLength)).sum + dl := by
  induction hc generalizing i with
  | nil => simp at hi
  | cons h rest ih =>
    cases i with
    | zero => simp [addAt, CalorHit.Add]; ring
    | succ i =>
      have hi2 : i < rest.length := by simpa using hi
      simp [addAt, ih i hi2]; ring

theorem sum_fIonYield_addAt (hc : List CalorHit) (i : Nat) (de dl : ℚ) (dn : Int)
    (hi : i < hc.length) :
    wrapG4int ((addAt hc i de dl dn).map (·.fIonYield)).sum
      = wrapG4int ((hc.map (·.fIonYield)).sum + dn) := by
  induction hc generalizing i with
  | nil => simp at hi
  | cons h rest ih =>
    cases i with
    | zero =>
      simp only [addAt, CalorHit.Add, List.map_cons, List.sum_cons]
      rw [add_comm, wrapG4int_eq_iff]
      rw [Int.add_emod, wrapG4int_emod, ← Int.add_emod]
      congr 1; ring
    | succ i =>
      have hi2 : i < rest.length := by simpa using hi
      have h2 := ih i hi2
      rw [wrapG4int_eq_iff] at h2 ⊢
      simp only [addAt, List.map_cons, List.sum_cons]
      rw [Int.add_emod, h2, ← Int.add_emod]
      congr 1; ring

/-! ## One call of ProcessHits -/

theorem isRecorded_eq_false_iff (v : Variant) (step : G4Step) :
    isRecorded v step = false ↔ energyDeposit v step = 0 ∧ effectiveStepLength step = 0 := by
  simp [isRecorded]

theorem energyDeposit_eq_zero_iff (v : Variant) (step : G4Step) :
    energyDeposit v step = 0 ↔ step.totalEnergyDeposit = 0 := by
  cases v <;> simp [energyDeposit, keV]

theorem ProcessHits_of_ignored (v : Variant) (eventID : Int) (sd : CalorimeterSD)
    (step : G4Step) (h : isRecorded v step = false) :
    sd.ProcessHits v eventID step
      = .ok { value := false, sd := sd, written := trackFileOutput v eventID step } := by
  rw [isRecorded_eq_false_iff] at h
  simp [CalorimeterSD.ProcessHits, h]

theorem ProcessHits_of_recorded (v : Variant) (eventID : Int) (sd : CalorimeterSD)
    (step : G4Step) (h : isRecorded v step = true)
    (hlo : 0 ≤ step.replicaNumber) (hhi : step.replicaNumber < sd.fHitsCollection.length) :
    sd.ProcessHits v eventID step
      = .ok { value := true
              sd := { sd with fHitsCollection := recordStep v sd.fHitsCollection step }
              written := trackFileOutput v eventID step } := by
  have hne : ¬ (energyDeposit v step = 0 ∧ effectiveStepLength step = 0) := by
    rw [← isRecorded_eq_false_iff, h]; simp
  have hlt : step.replicaNumber.toNat < sd.fHitsCollection.length := by omega
  have hpos : sd.fHitsCollection.length - 1 < sd.fHitsCollection.length := by omega
  obtain ⟨hit, hhit⟩ : ∃ hit, hitAt sd.fHitsCollection step.replicaNumber = some hit := by
    refine ⟨sd.fHitsCollection[step.replicaNumber.toNat], ?_⟩
    simp [hitAt, hlo, List.getElem?_eq_getElem hlt]
  simp only [CalorimeterSD.ProcessHits, hne, if_false, hhit, hpos, if_true, recordStep]

theorem ProcessHits_of_noHit (v : Variant) (eventID : Int) (sd : CalorimeterSD)
    (step : G4Step) (h : isRecorded v step = true)
    (hbad : step.replicaNumber < 0 ∨ (sd.fHitsCollection.length : Int) ≤ step.replicaNumber) :
    sd.ProcessHits v eventID step = .error (.fatalException "MyCode0004") := by
  have hne : ¬ (energyDeposit v step = 0 ∧ effectiveStepLength step = 0) := by
    rw [← isRecorded_eq_false_iff, h]; simp
  have hnone : hitAt sd.fHitsCollection step.replicaNumber = none := by
    unfold hitAt
    split
    · rw [List.getElem?_eq_none_iff]; omega
    · rfl
  simp only [CalorimeterSD.ProcessHits, hne, if_false, hnone]

theorem length_stepEffect (v : Variant) (hc : List CalorHit) (step : G4Step) :
    (stepEffect v hc step).length = hc.length := by
  unfold stepEffect recordStep
  split <;> simp [length_addAt]

/-! ## The steps of one event -/

theorem processSteps_eq_foldl (v : Variant) (eventID : Int) (steps : List G4Step) :
    ∀ sd : CalorimeterSD,
      (∀ step ∈ steps, isRecorded v step = true →
        0 ≤ step.replicaNumber ∧ step.replicaNumber < sd.fHitsCollection.length) →
      processSteps v eventID sd steps
        = .ok { sd with fHitsCollection := steps.foldl (stepEffect v) sd.fHitsCollection } := by
  induction steps with
  | nil => intro sd _; rfl
  | cons step rest ih =>
    intro sd hvalid
    cases hrec : isRecorded v step with
    | false =>
      have hrest := ih sd (fun s hs => hvalid s (List.mem_cons_of_mem _ hs))
      simp only [processSteps, ProcessHits_of_ignored v eventID sd step hrec, hrest,
        List.foldl_cons, stepEffect, hrec]
      rfl
    | true =>
      obtain ⟨hlo, hhi⟩ := hvalid step (List.mem_cons_self _ _) hrec
      have hlen : (recordStep v sd.fHitsCollection step).length = sd.fHitsCollection.length := by
        simp [recordStep, length_addAt]
      have hrest := ih { sd with fHitsCollection := recordStep v sd.fHitsCollection step }
        (fun s hs hr => by
          have := hvalid s (List.mem_cons_of_mem _ hs) hr
          simpa [hlen] using this)
      simp only [processSteps, ProcessHits_of_recorded v eventID sd step hrec hlo hhi, hrest,
        List.foldl_cons, stepEffect, hrec, if_true]

theorem length_foldl_stepEffect (v : Variant) (steps : List G4Step) (hc : List CalorHit) :
    (steps.foldl (stepEffect v) hc).length = hc.length := by
  induction steps generalizing hc with
  | nil => rfl
  | cons step rest ih => simp [List.foldl_cons, ih, length_stepEffect]

theorem Initialize_hits (sd : CalorimeterSD) :
    sd.Initialize.fHitsCollection = List.replicate (sd.fNofCells + 1).toNat ({} : CalorHit) := by
  simp [CalorimeterSD.Initialize, insertHits_eq]

/-! ## The last hit and the cell hits along an event -/

theorem wrapG4int_idem (x : Int) : wrapG4int (wrapG4int x) = wrapG4int x := by
  rw [wrapG4int_eq_iff, wrapG4int_emod]

theorem getElem?_stepEffect_last (v : Variant) (n : Nat) (hc : List CalorHit) (step : G4Step)
    (hlen : hc.length = n + 1)
    (hlayer : isRecorded v step = true → step.replicaNumber.toNat < n) :
    (stepEffect v hc step)[n]?
      = (hc[n]?).map (fun t =>
          if isRecorded v step then
            t.Add (energyDeposit v step) (effectiveStepLength step) (ionizationCount step)
          else t) := by
  unfold stepEffect
  cases hrec : isRecorded v step with
  | false => simp
  | true =>
    have hne : step.replicaNumber.toNat ≠ n := Nat.ne_of_lt (hlayer hrec)
    have hlast : hc.length - 1 = n := by omega
    simp only [if_true, recordStep, hlast]
    rw [getElem?_addAt_self, getElem?_addAt_ne _ _ _ _ _ _ hne]

theorem take_stepEffect (v : Variant) (n : Nat) (hc : List CalorHit) (step : G4Step)
    (hlen : hc.length = n + 1)
    (hlayer : isRecorded v step = true → step.replicaNumber.toNat < n) :
    (stepEffect v hc step).take n
      = if isRecorded v step then
          addAt (hc.take n) step.replicaNumber.toNat (energyDeposit v step)
            (effectiveStepLength step) (ionizationCount step)
        else hc.take n := by
  unfold stepEffect
  cases hrec : isRecorded v step with
  | false => simp
  | true =>
    have hlast : hc.length - 1 = n := by omega
    simp only [if_true, recordStep, hlast]
    rw [take_addAt_of_le _ _ _ _ _ _ (Nat.le_refl n), take_addAt_of_lt _ _ _ _ _ _ (hlayer hrec)]

theorem energyDeposit_of_ignored (v : Variant) (step : G4Step)
    (h : isRecorded v step = false) : energyDeposit v step = 0 :=
  ((isRecorded_eq_false_iff v step).mp h).1

theorem effectiveStepLength_of_ignored (v : Variant) (step : G4Step)
    (h : isRecorded v step = false) : effectiveStepLength step = 0 :=
  ((isRecorded_eq_false_iff v step).mp h).2

/-- The last hit after the steps of an event, field by field. -/
theorem foldl_stepEffect_last (v : Variant) (n : Nat) (steps : List G4Step) :
    ∀ (hc : List CalorHit) (t : CalorHit), hc.length = n + 1 → hc[n]? = some t →
      (∀ step ∈ steps, isRecorded v step = true → step.replicaNumber.toNat < n) →
      ∃ t2, (steps.foldl (stepEffect v) hc)[n]? = some t2 ∧
        t2.fEdep = t.fEdep + (steps.map (energyDeposit v)).sum ∧
        t2.fTrackLength = t.fTrackLength + (steps.map effectiveStepLength).sum ∧
        wrapG4int t2.fIonYield = wrapG4int (t.fIonYield + recordedIonSum v steps) ∧
        (wrapG4int t.fIonYield = t.fIonYield → wrapG4int t2.fIonYield = t2.fIonYield) := by
  induction steps with
  | nil =>
    intro hc t _ ht _
    exact ⟨t, ht, by simp, by simp, by simp [recordedIonSum], fun h => h⟩
  | cons step rest ih =>
    intro hc t hlen ht hvalid
    have hstep := getElem?_stepEffect_last v n hc step hlen
      (hvalid step (List.mem_cons_self _ _))
    rw [ht] at hstep
    have hlen2 : (stepEffect v hc step).length = n + 1 := by rw [length_stepEffect, hlen]
    obtain ⟨t2, hget, he, hl, hi, hr⟩ := ih (stepEffect v hc step) _ hlen2 hstep
      (fun s hs => hvalid s (List.mem_cons_of_mem _ hs))
    refine ⟨t2, by simpa [List.foldl_cons] using hget, ?_, ?_, ?_, ?_⟩
    · rw [he]
      cases hrec : isRecorded v step with
      | false => simp [energyDeposit_of_ignored v step hrec]
      | true => simp [CalorHit.Add]; ring
    · rw [hl]
      cases hrec : isRecorded v step with
      | false => simp [effectiveStepLength_of_ignored v step hrec]
      | true => simp [CalorHit.Add]; ring
    · rw [hi]
      cases hrec : isRecorded v step with
      | false => simp [recordedIonSum, hrec]
      | true =>
        simp only [if_true, CalorHit.Add, recordedIonSum, hrec, List.filter_cons, List.map_cons,
          List.sum_cons]
        rw [wrapG4int_wrap_add]
        congr 1; ring
    · intro hrange
      apply hr
      cases hrec : isRecorded v step with
      | false => simpa using hrange
      | true => simp [CalorHit.Add, wrapG4int_idem]

/-- An event whose recorded steps lie in the cells runs to its end, and the
collection is the fold of `stepEffect` over the fresh hits. -/
theorem runEvent_eq_foldl (v : Variant) (eventID : Int) (sd : CalorimeterSD)
    (steps : List G4Step) (hn : 0 ≤ sd.fNofCells)
    (hvalid : ∀ step ∈ steps, isRecorded v step = true →
      0 ≤ step.replicaNumber ∧ step.replicaNumber < sd.fNofCells) :
    runEvent v eventID sd steps
      = .ok { fNofCells := sd.fNofCells
              fHitsCollection :=
                steps.foldl (stepEffect v)
                  (List.replicate (sd.fNofCells.toNat + 1) ({} : CalorHit)) } := by
  have hcount : (sd.fNofCells + 1).toNat = sd.fNofCells.toNat + 1 := by omega
  have hinit : sd.Initialize.fHitsCollection
      = List.replicate (sd.fNofCells.toNat + 1) ({} : CalorHit) := by
    rw [Initialize_hits, hcount]
  unfold runEvent
  rw [processSteps_eq_foldl v eventID steps sd.Initialize, hinit]
  · rfl
  · intro step hs hrec
    obtain ⟨hlo, hhi⟩ := hvalid step hs hrec
    refine ⟨hlo, ?_⟩
    rw [hinit, List.length_replicate]
    omega

theorem ProcessHits_ok_inv (v : Variant) (eventID : Int) (sd : CalorimeterSD)
    (step : G4Step) (r : ProcessResult) (h : sd.ProcessHits v eventID step = .ok r) :
    r.value = isRecorded v step ∧
    r.sd = { sd with fHitsCollection := stepEffect v sd.fHitsCollection step } ∧
    r.written = trackFileOutput v eventID step := by
  cases hrec : isRecorded v step with
  | false =>
    rw [ProcessHits_of_ignored v eventID sd step hrec] at h
    cases h
    simp [stepEffect, hrec]
  | true =>
    by_cases hok : 0 ≤ step.replicaNumber ∧ step.replicaNumber < sd.fHitsCollection.length
    · rw [ProcessHits_of_recorded v eventID sd step hrec hok.1 hok.2] at h
      cases h
      simp [stepEffect, hrec]
    · have hbad : step.replicaNumber < 0 ∨
          (sd.fHitsCollection.length : Int) ≤ step.replicaNumber := by omega
      rw [ProcessHits_of_noHit v eventID sd step hrec hbad] at h
      cases h

theorem map_fTrackLength_addAt_zero (hc : List CalorHit) (i : Nat) (de : ℚ) (dn : Int) :
    (addAt hc i de 0 dn).map (·.fTrackLength) = hc.map (·.fTrackLength) := by
  induction hc generalizing i with
  | nil => simp [addAt]
  | cons h rest ih => cases i <;> simp [addAt, CalorHit.Add, ih]

theorem sum_effectiveStepLength (steps : List G4Step) :
    (steps.map effectiveStepLength).sum
      = ((steps.filter (fun step => decide (step.pdgCharge ≠ 0))).map (·.stepLength)).sum := by
  induction steps with
  | nil => rfl
  | cons step rest ih =>
    by_cases hq : step.pdgCharge = 0
    · simp [effectiveStepLength, hq, ih]
    · simp [effectiveStepLength, hq, ih]

theorem sum_energyDeposit_multiple (steps : List G4Step) :
    (steps.map (energyDeposit .multiple)).sum = totalEnergyDepositSum steps := by
  unfold totalEnergyDepositSum
  congr 1

/-- The totals kept in the last hit agree with the sums over the cell hits,
and stay so along the steps of an event. -/
theorem foldl_stepEffect_cells (v : Variant) (n : Nat) (steps : List G4Step) :
    ∀ (hc : List CalorHit) (t : CalorHit), hc.length = n + 1 → hc[n]? = some t →
      (∀ step ∈ steps, isRecorded v step = true → step.replicaNumber.toNat < n) →
      t.fEdep = ((hc.take n).map (·.fEdep)).sum →
      t.fTrackLength = ((hc.take n).map (·.fTrackLength)).sum →
      wrapG4int t.fIonYield = wrapG4int ((hc.take n).map (·.fIonYield)).sum →
      ∃ t2, (steps.foldl (stepEffect v) hc)[n]? = some t2 ∧
        t2.fEdep = (((steps.foldl (stepEffect v) hc).take n).map (·.fEdep)).sum ∧
        t2.fTrackLength
          = (((steps.foldl (stepEffect v) hc).take n).map (·.fTrackLength)).sum ∧
        wrapG4int t2.fIonYield
          = wrapG4int (((steps.foldl (stepEffect v) hc).take n).map (·.fIonYield)).sum := by
  induction steps with
  | nil =>
    intro hc t _ ht _ he hl hi
    exact ⟨t, ht, he, hl, hi⟩
  | cons step rest ih =>
    intro hc t hlen ht hvalid he hl hi
    have hlayer := hvalid step (List.mem_cons_self _ _)
    have hstep := getElem?_stepEffect_last v n hc step hlen hlayer
    rw [ht] at hstep
    have htake := take_stepEffect v n hc step hlen hlayer
    have hlen2 : (stepEffect v hc step).length = n + 1 := by rw [length_stepEffect, hlen]
    have htl : (hc.take n).length = n := by simp [hlen]
    refine ih (stepEffect v hc step) _ hlen2 hstep
      (fun s hs => hvalid s (List.mem_cons_of_mem _ hs)) ?_ ?_ ?_
    · rw [htake]
      cases hrec : isRecorded v step with
      | false => simpa using he
      | true =>
        have hi2 : step.replicaNumber.toNat < (hc.take n).length := by
          rw [htl]; exact hlayer hrec
        simp only [if_true, CalorHit.Add]
        rw [sum_fEdep_addAt _ _ _ _ _ hi2, he]
    · rw [htake]
      cases hrec : isRecorded v step with
      | false => simpa using hl
      | true =>
        have hi2 : step.replicaNumber.toNat < (hc.take n).length := by
          rw [htl]; exact hlayer hrec
        simp only [if_true, CalorHit.Add]
        rw [sum_fTrackLength_addAt _ _ _ _ _ hi2, hl]
    · rw [htake]
      cases hrec : isRecorded v step with
      | false => simpa using hi
      | true =>
        have hi2 : step.replicaNumber.toNat < (hc.take n).length := by
          rw [htl]; exact hlayer hrec
        simp only [if_true, CalorHit.Add]
        rw [sum_fIonYield_addAt _ _ _ _ _ hi2, wrapG4int_idem]
        rw [wrapG4int_eq_iff] at hi ⊢
        rw [Int.add_emod, hi, ← Int.add_emod]

/-- With one cell and every step in layer 0 the two hits stay equal. -/
theorem foldl_stepEffect_pair (v : Variant) (steps : List G4Step) :
    ∀ h : CalorHit, (∀ step ∈ steps, step.replicaNumber = 0) →
      ∃ h2, steps.foldl (stepEffect v) [h, h] = [h2, h2] := by
  induction steps with
  | nil => intro h _; exact ⟨h, rfl⟩
  | cons step rest ih =>
    intro h hzero
    have h0 : step.replicaNumber = 0 := hzero step (List.mem_cons_self _ _)
    have hrest := fun h2 => ih h2 (fun s hs => hzero s (List.mem_cons_of_mem _ hs))
    cases hrec : isRecorded v step with
    | false =>
      simpa [List.foldl_cons, stepEffect, hrec] using hrest h
    | true =>
      simpa [List.foldl_cons, stepEffect, hrec, recordStep, h0, addAt] using hrest _

/-! ## Claims about the hit record and the ionization counter -/

/-- C1: after `Add(de, dl, dnIon)` the three getters return the old value plus
`de`, the old value plus `dl`, and the old ion yield plus `dnIon` in 32-bit
integer arithmetic; each getter returns its field, and the hit after the call
is determined by these three fields. -/
theorem CalorHit_Add_getters (h : CalorHit) (de dl : ℚ) (dnIon : Int) :
    (h.Add de dl dnIon).GetEdep = h.GetEdep + de ∧
    (h.Add de dl dnIon).GetTrackLength = h.GetTrackLength + dl ∧
    (h.Add de dl dnIon).GetIonYield = wrapG4int (h.GetIonYield + dnIon) ∧
    (h.GetEdep = h.fEdep ∧ h.GetTrackLength = h.fTrackLength ∧ h.GetIonYield = h.fIonYield) ∧
    h.Add de dl dnIon
      = { fEdep := h.fEdep + de, fTrackLength := h.fTrackLength + dl,
          fIonYield := wrapG4int (h.fIonYield + dnIon) } :=
  ⟨rfl, rfl, rfl, ⟨rfl, rfl, rfl⟩, rfl⟩

/-- C2: for every `nofCells ≥ 0` and every previous content of the hits
collection, `Initialize` leaves a collection of exactly `nofCells + 1` hits,
each with energy deposit 0, track length 0 and ion yield 0, and keeps the
number of cells. -/
theorem Initialize_fresh_collection (nofCells : Int) (previous : List CalorHit)
    (h : 0 ≤ nofCells) :
    let sd := CalorimeterSD.Initialize { fNofCells := nofCells, fHitsCollection := previous }
    (sd.fHitsCollection.length : Int) = nofCells + 1 ∧
    (∀ hit ∈ sd.fHitsCollection,
      hit.GetEdep = 0 ∧ hit.GetTrackLength = 0 ∧ hit.GetIonYield = 0) ∧
    sd.fHitsCollection = List.replicate (nofCells.toNat + 1) ({} : CalorHit) ∧
    sd.fNofCells = nofCells := by
  have hn : (nofCells + 1).toNat = nofCells.toNat + 1 := by omega
  refine ⟨?_, ?_, ?_, rfl⟩
  · rw [Initialize_hits]
    simp only [List.length_replicate]
    omega
  · intro hit hmem
    rw [Initialize_hits] at hmem
    have := List.eq_of_mem_replicate hmem
    subst this
    exact ⟨rfl, rfl, rfl⟩
  · rw [Initialize_hits, hn]

theorem Initialize_fresh_collection_witness :
    (0 : Int) ≤ 1 ∧
    (CalorimeterSD.Initialize
        { fNofCells := 1, fHitsCollection := [{ fEdep := 5, fTrackLength := 6, fIonYield := 7 }] }
      ).fHitsCollection = [{}, {}] :=
  ⟨by decide,
   (Initialize_fresh_collection 1 [{ fEdep := 5, fTrackLength := 6, fIonYield := 7 }]
      (by decide)).2.2.1⟩

/-- C3: the ionization count of a step is, when the pre-step volume is named
exactly "SensitiveDetector", the number of secondaries that have a creator
process whose name contains "Ioni" and whose particle is named exactly "e-",
and 0 for any other volume name; secondaries without a creator process play no
part in the count. -/
theorem ionizationCount_eq_count (step : G4Step) :
    ionizationCount step
      = (if step.preStepVolumeName = "SensitiveDetector" then
          ((step.secondaryInCurrentStep.countP
              (fun sec => decide (CountsAsIonisation sec)) : Nat) : Int)
         else 0) ∧
    ionizationCount step
      = ionizationCount
          { step with
            secondaryInCurrentStep :=
              step.secondaryInCurrentStep.filter (fun sec => sec.creatorProcessName.isSome) } := by
  have hpred : (fun sec => decide (CountsAsIonisation sec)) = isIonisationElectron := by
    funext sec
    cases hb : isIonisationElectron sec with
    | true => simpa using (isIonisationElectron_iff sec).mp hb
    | false =>
      have : ¬ CountsAsIonisation sec := fun hc => by
        rw [(isIonisationElectron_iff sec).mpr hc] at hb
        cases hb
      simpa using this
  constructor
  · unfold ionizationCount
    by_cases hv : step.preStepVolumeName = "SensitiveDetector"
    · simp [hv, countLoop_eq, hpred]
    · simp [hv]
  · unfold ionizationCount
    by_cases hv : step.preStepVolumeName = "SensitiveDetector"
    · simp only [hv, beq_self_eq_true, if_true, countLoop_eq, zero_add, List.countP_filter]
      congr 2
      funext sec
      cases hc : sec.creatorProcessName <;> simp [isIonisationElectron, hc]
    · simp [hv]

/-! ## Claims about the hits of one event -/

/-- C4 (as stated, refuted): an ignored step with ionization count 1 leaves the
ion yield of the total hit at 0, and a step whose layer number is `fNofCells`
passes the lookup and puts its count into the total hit twice. -/
theorem total_ionYield_differs_from_count_sum :
    (∃ sd t, runEvent .multiple 0 constructedSD [neutralIonisingStep] = .ok sd ∧
      totalHit sd = some t ∧ t.GetIonYield = 0 ∧
      ([neutralIonisingStep].map ionizationCount).sum = 1) ∧
    (∃ sd t, runEvent .multiple 0 constructedSD [electronStepInReplicaOne] = .ok sd ∧
      totalHit sd = some t ∧ t.GetIonYield = 2 ∧
      ([electronStepInReplicaOne].map ionizationCount).sum = 1) := by
  constructor
  · refine ⟨{ fNofCells := 1, fHitsCollection := [{}, {}] }, {}, ?_, rfl, rfl, by decide⟩
    simp [runEvent, processSteps, CalorimeterSD.ProcessHits, CalorimeterSD.Initialize,
      constructedSD, neutralIonisingStep, insertHits, energyDeposit, effectiveStepLength]
  · refine ⟨{ fNofCells := 1,
              fHitsCollection := [{}, { fEdep := 2 / 1000, fTrackLength := 10, fIonYield := 2 }] },
            { fEdep := 2 / 1000, fTrackLength := 10, fIonYield := 2 }, ?_, rfl, rfl, by decide⟩
    simp [runEvent, processSteps, CalorimeterSD.ProcessHits, CalorimeterSD.Initialize,
      constructedSD, electronStepInReplicaOne, electronStep, insertHits, energyDeposit,
      effectiveStepLength, hitAt, addAt, CalorHit.Add, ionizationCount, countLoop,
      isIonisationElectron, find]
    refine ⟨by norm_num, by norm_num, by decide⟩

/-- C4 (amended): for an event whose steps have layer numbers in
`0 .. fNofCells - 1`, the ion yield of the total hit at the end of the event is
the sum, in 32-bit integer arithmetic, of the ionization counts of the steps
that `ProcessHits` does not ignore. -/
theorem total_ionYield_eq_recorded_sum (v : Variant) (eventID : Int) (sd : CalorimeterSD)
    (steps : List G4Step) (hn : 0 ≤ sd.fNofCells)
    (hvalid : ∀ step ∈ steps, 0 ≤ step.replicaNumber ∧ step.replicaNumber < sd.fNofCells) :
    ∃ sd2 t, runEvent v eventID sd steps = .ok sd2 ∧ totalHit sd2 = some t ∧
      t.GetIonYield = wrapG4int (recordedIonSum v steps) := by
  have hfresh : (List.replicate (sd.fNofCells.toNat + 1) ({} : CalorHit))[sd.fNofCells.toNat]?
      = some {} := by
    simp [List.getElem?_replicate]
  obtain ⟨t, hget, _, _, hion, hrange⟩ :=
    foldl_stepEffect_last v sd.fNofCells.toNat steps _ _ (by simp) hfresh
      (fun step hs _ => by have := hvalid step hs; omega)
  refine ⟨_, t, runEvent_eq_foldl v eventID sd steps hn (fun step hs _ => hvalid step hs), ?_, ?_⟩
  · simp only [totalHit, length_foldl_stepEffect, List.length_replicate, Nat.add_sub_cancel]
    exact hget
  · have h0 : wrapG4int (({} : CalorHit).fIonYield) = ({} : CalorHit).fIonYield := by decide
    have h1 := hrange h0
    rw [h1] at hion
    simpa [CalorHit.GetIonYield] using hion

theorem total_ionYield_eq_recorded_sum_witness :
    ((0 : Int) ≤ constructedSD.fNofCells ∧
      ∀ step ∈ [neutralIonisingStep, electronStep],
        0 ≤ step.replicaNumber ∧ step.replicaNumber < constructedSD.fNofCells) ∧
    ∃ sd2 t, runEvent .multiple 0 constructedSD [neutralIonisingStep, electronStep] = .ok sd2 ∧
      totalHit sd2 = some t ∧
      t.GetIonYield = wrapG4int (recordedIonSum .multiple [neutralIonisingStep, electronStep]) :=
  ⟨⟨by decide, by decide⟩,
   total_ionYield_eq_recorded_sum .multiple 0 constructedSD [neutralIonisingStep, electronStep]
     (by decide) (by decide)⟩

/-- C5: in the multi-region variant, for an event on a detector with
`fNofCells ≥ 0` whose steps have layer numbers in `0 .. fNofCells - 1`, the
event runs to its end and the energy deposit of the total hit is the sum of
`GetTotalEnergyDeposit()` over all its steps, in internal units. -/
theorem total_edep_multiple (eventID : Int) (sd : CalorimeterSD) (steps : List G4Step)
    (hn : 0 ≤ sd.fNofCells)
    (hvalid : ∀ step ∈ steps, 0 ≤ step.replicaNumber ∧ step.replicaNumber < sd.fNofCells) :
    ∃ sd2 t, runEvent .multiple eventID sd steps = .ok sd2 ∧ totalHit sd2 = some t ∧
      t.GetEdep = totalEnergyDepositSum steps := by
  have hfresh : (List.replicate (sd.fNofCells.toNat + 1) ({} : CalorHit))[sd.fNofCells.toNat]?
      = some {} := by
    simp [List.getElem?_replicate]
  obtain ⟨t, hget, hedep, _, _, _⟩ :=
    foldl_stepEffect_last .multiple sd.fNofCells.toNat steps _ _ (by simp) hfresh
      (fun step hs _ => by have := hvalid step hs; omega)
  refine ⟨_, t, runEvent_eq_foldl .multiple eventID sd steps hn
    (fun step hs _ => hvalid step hs), ?_, ?_⟩
  · simp only [totalHit, length_foldl_stepEffect, List.length_replicate, Nat.add_sub_cancel]
    exact hget
  · rw [CalorHit.GetEdep, hedep, sum_energyDeposit_multiple]
    simp

theorem total_edep_multiple_witness :
    ((0 : Int) ≤ constructedSD.fNofCells ∧
      ∀ step ∈ [neutralIonisingStep, electronStep],
        0 ≤ step.replicaNumber ∧ step.replicaNumber < constructedSD.fNofCells) ∧
    ∃ sd2 t, runEvent .multiple 0 constructedSD [neutralIonisingStep, electronStep] = .ok sd2 ∧
      totalHit sd2 = some t ∧
      t.GetEdep = totalEnergyDepositSum [neutralIonisingStep, electronStep] :=
  ⟨⟨by decide, by decide⟩,
   total_edep_multiple 0 constructedSD [neutralIonisingStep, electronStep]
     (by decide) (by decide)⟩

/-- C6: in both variants, for an event on a detector with `fNofCells ≥ 0` whose
steps have layer numbers in `0 .. fNofCells - 1`, the track length of the total
hit is the sum of `GetStepLength()` over exactly the steps of particles with
non-zero PDG charge; and a `ProcessHits` call for a particle of PDG charge 0
that returns leaves the track length of every hit as it was. -/
theorem total_trackLength_charged_steps (v : Variant) (eventID : Int) (sd : CalorimeterSD)
    (steps : List G4Step) (hn : 0 ≤ sd.fNofCells)
    (hvalid : ∀ step ∈ steps, 0 ≤ step.replicaNumber ∧ step.replicaNumber < sd.fNofCells) :
    (∃ sd2 t, runEvent v eventID sd steps = .ok sd2 ∧ totalHit sd2 = some t ∧
      t.GetTrackLength
        = ((steps.filter (fun step => decide (step.pdgCharge ≠ 0))).map (·.stepLength)).sum) ∧
    (∀ (det : CalorimeterSD) (step : G4Step) (r : ProcessResult), step.pdgCharge = 0 →
      det.ProcessHits v eventID step = .ok r →
      r.sd.fHitsCollection.map (·.GetTrackLength)
        = det.fHitsCollection.map (·.GetTrackLength)) := by
  constructor
  · have hfresh : (List.replicate (sd.fNofCells.toNat + 1) ({} : CalorHit))[sd.fNofCells.toNat]?
        = some {} := by
      simp [List.getElem?_replicate]
    obtain ⟨t, hget, _, hlen, _, _⟩ :=
      foldl_stepEffect_last v sd.fNofCells.toNat steps _ _ (by simp) hfresh
        (fun step hs _ => by have := hvalid step hs; omega)
    refine ⟨_, t, runEvent_eq_foldl v eventID sd steps hn
      (fun step hs _ => hvalid step hs), ?_, ?_⟩
    · simp only [totalHit, length_foldl_stepEffect, List.length_replicate, Nat.add_sub_cancel]
      exact hget
    · rw [CalorHit.GetTrackLength, hlen, sum_effectiveStepLength]
      simp
  · intro det step r hq hok
    obtain ⟨_, hsd, _⟩ := ProcessHits_ok_inv v eventID det step r hok
    have hzero : effectiveStepLength step = 0 := by simp [effectiveStepLength, hq]
    have hget : (fun h : CalorHit => h.GetTrackLength) = (·.fTrackLength) := rfl
    rw [hsd, hget]
    simp only [stepEffect, recordStep, hzero]
    split
    · rw [map_fTrackLength_addAt_zero, map_fTrackLength_addAt_zero]
    · rfl

theorem total_trackLength_charged_steps_witness :
    ((0 : Int) ≤ constructedSD.fNofCells ∧
      ∀ step ∈ [neutralIonisingStep, electronStep],
        0 ≤ step.replicaNumber ∧ step.replicaNumber < constructedSD.fNofCells) ∧
    ∃ sd2 t, runEvent .macroscopic 0 constructedSD [neutralIonisingStep, electronStep] = .ok sd2 ∧
      totalHit sd2 = some t ∧
      t.GetTrackLength
        = (([neutralIonisingStep, electronStep].filter
              (fun step => decide (step.pdgCharge ≠ 0))).map (·.stepLength)).sum :=
  ⟨⟨by decide, by decide⟩,
   (total_trackLength_charged_steps .macroscopic 0 constructedSD
      [neutralIonisingStep, electronStep] (by decide) (by decide)).1⟩

/-- C7: a `ProcessHits` call that returns gives `false` exactly when the energy
deposit of the step is 0 and its effective step length (0 for neutral
particles) is 0; in that case the call does return and the detector, with every
hit of its collection, is as before, whatever the ionization count of the step;
in every other case with a layer number at which the collection holds a hit the
call returns `true`. -/
theorem ProcessHits_return_value (v : Variant) (eventID : Int) (sd : CalorimeterSD)
    (step : G4Step) :
    (∀ r, sd.ProcessHits v eventID step = .ok r →
      (r.value = false ↔ step.totalEnergyDeposit = 0 ∧ effectiveStepLength step = 0)) ∧
    (step.totalEnergyDeposit = 0 ∧ effectiveStepLength step = 0 →
      ∃ r, sd.ProcessHits v eventID step = .ok r ∧ r.value = false ∧ r.sd = sd) ∧
    (¬ (step.totalEnergyDeposit = 0 ∧ effectiveStepLength step = 0) →
      0 ≤ step.replicaNumber → step.replicaNumber < sd.fHitsCollection.length →
      ∃ r, sd.ProcessHits v eventID step = .ok r ∧ r.value = true) := by
  have hiff : isRecorded v step = false
      ↔ step.totalEnergyDeposit = 0 ∧ effectiveStepLength step = 0 := by
    rw [isRecorded_eq_false_iff, energyDeposit_eq_zero_iff]
  refine ⟨?_, ?_, ?_⟩
  · intro r hok
    rw [(ProcessHits_ok_inv v eventID sd step r hok).1, hiff]
  · intro hzero
    exact ⟨_, ProcessHits_of_ignored v eventID sd step (hiff.mpr hzero), rfl, rfl⟩
  · intro hmove hlo hhi
    have hrec : isRecorded v step = true := by
      cases hc : isRecorded v step with
      | true => rfl
      | false => exact absurd (hiff.mp hc) hmove
    exact ⟨_, ProcessHits_of_recorded v eventID sd step hrec hlo hhi, rfl⟩

theorem ProcessHits_return_value_witness :
    (neutralIonisingStep.totalEnergyDeposit = 0 ∧ effectiveStepLength neutralIonisingStep = 0) ∧
    ionizationCount neutralIonisingStep = 1 ∧
    ∃ r, constructedSD.Initialize.ProcessHits .macroscopic 0 neutralIonisingStep = .ok r ∧
      r.value = false ∧ r.sd = constructedSD.Initialize :=
  ⟨by simp [neutralIonisingStep, effectiveStepLength], by decide,
   (ProcessHits_return_value .macroscopic 0 constructedSD.Initialize neutralIonisingStep).2.1
     (by simp [neutralIonisingStep, effectiveStepLength])⟩

/-- A value of at most 53 bits is not changed by the rounding. -/
theorem toRat_roundNearestEven_of_short (n e : Int) (h : bitLength n.natAbs ≤ 53) :
    (roundNearestEven n e).toRat = n * (2 : ℚ) ^ e := by
  simp [roundNearestEven, h, Binary64.toRat]

/-- C8 (as stated, refuted): in binary64 arithmetic, on a detector of two
cells, the event with a deposit of 1 in layer 0 and two deposits of
`5 · 2 ^ (-55)` in layer 1 runs to its end with finite values, and the energy
deposit of the last hit, `1 + 2 · 2 ^ (-52)`, is neither the exact sum
`1 + 5 · 2 ^ (-54)` of the energy deposits of the two cell hits nor that sum
rounded to binary64, `1 + 2 ^ (-52)`: the last hit adds the three deposits one
by one, the cell of layer 1 adds the two small ones first. -/
theorem last_hit_edep_differs_in_binary64 :
    ∃ c0 c1 t : DoubleHit,
      runDoubleEvent { fNofCells := 2, fHitsCollection := [] } roundingEvent
        = .ok { fNofCells := 2, fHitsCollection := [c0, c1, t] } ∧
      (c0.fEdep.IsFinite ∧ c1.fEdep.IsFinite ∧ t.fEdep.IsFinite ∧
        (c0.fEdep.add c1.fEdep).IsFinite) ∧
      t.fEdep.toRat = 1 + 2 / 2 ^ 52 ∧
      c0.fEdep.toRat + c1.fEdep.toRat = 1 + 5 / 2 ^ 54 ∧
      (c0.fEdep.add c1.fEdep).toRat = 1 + 1 / 2 ^ 52 ∧
      t.fEdep.toRat ≠ c0.fEdep.toRat + c1.fEdep.toRat ∧
      t.fEdep.toRat ≠ (c0.fEdep.add c1.fEdep).toRat := by
  have hsum : Binary64.add { mantissa := 1, exponent := 0 } { mantissa := 10, exponent := -55 }
      = { mantissa := 4503599627370497, exponent := -52 } := by decide
  refine ⟨{ fEdep := { mantissa := 1, exponent := 0 } },
    { fEdep := { mantissa := 10, exponent := -55 } },
    { fEdep := { mantissa := 4503599627370498, exponent := -52 } }, rfl, ?_, ?_, ?_, ?_, ?_, ?_⟩
  · rw [hsum]
    exact ⟨by decide, by decide, by decide, by decide⟩
  · norm_num [Binary64.toRat]
  · norm_num [Binary64.toRat]
  · rw [hsum]
    norm_num [Binary64.toRat]
  · norm_num [Binary64.toRat]
  · rw [hsum]
    norm_num [Binary64.toRat]

/-- C8 (amended): with the `G4double` additions taken in exact arithmetic,
after `Initialize` and the steps of an event with layer numbers in
`0 .. fNofCells - 1` (on a detector with `fNofCells ≥ 0`), the hit at the last
index holds the totals over the cells: its energy deposit and its track length
are the sums of these fields over the hits at indices `0 .. fNofCells - 1`, and
its ion yield is their sum of ion yields in 32-bit integer arithmetic. -/
theorem last_hit_holds_cell_totals (v : Variant) (eventID : Int) (sd : CalorimeterSD)
    (steps : List G4Step) (hn : 0 ≤ sd.fNofCells)
    (hvalid : ∀ step ∈ steps, 0 ≤ step.replicaNumber ∧ step.replicaNumber < sd.fNofCells) :
    ∃ sd2 t, runEvent v eventID sd steps = .ok sd2 ∧ totalHit sd2 = some t ∧
      t.GetEdep = ((cellHits sd2).map (·.GetEdep)).sum ∧
      t.GetTrackLength = ((cellHits sd2).map (·.GetTrackLength)).sum ∧
      t.GetIonYield = wrapG4int ((cellHits sd2).map (·.GetIonYield)).sum := by
  have hfresh : (List.replicate (sd.fNofCells.toNat + 1) ({} : CalorHit))[sd.fNofCells.toNat]?
      = some {} := by
    simp [List.getElem?_replicate]
  have hlayers : ∀ step ∈ steps, isRecorded v step = true →
      step.replicaNumber.toNat < sd.fNofCells.toNat :=
    fun step hs _ => by have := hvalid step hs; omega
  obtain ⟨t, hget, _, _, _, hrange⟩ :=
    foldl_stepEffect_last v sd.fNofCells.toNat steps _ _ (by simp) hfresh hlayers
  obtain ⟨t2, hget2, hedep, htrack, hion⟩ :=
    foldl_stepEffect_cells v sd.fNofCells.toNat steps _ _ (by simp) hfresh hlayers
      (by simp [List.take_replicate]) (by simp [List.take_replicate])
      (by simp [List.take_replicate])
  have htt : t2 = t := by
    rw [hget] at hget2
    exact (Option.some.inj hget2).symm
  subst htt
  refine ⟨_, t2, runEvent_eq_foldl v eventID sd steps hn (fun step hs _ => hvalid step hs),
    ?_, hedep, htrack, ?_⟩
  · simp only [totalHit, length_foldl_stepEffect, List.length_replicate, Nat.add_sub_cancel]
    exact hget
  · have h0 : wrapG4int (({} : CalorHit).fIonYield) = ({} : CalorHit).fIonYield := by decide
    have h1 := hrange h0
    rw [h1] at hion
    exact hion

theorem last_hit_holds_cell_totals_witness :
    ((0 : Int) ≤ constructedSD.fNofCells ∧
      ∀ step ∈ [neutralIonisingStep, electronStep],
        0 ≤ step.replicaNumber ∧ step.replicaNumber < constructedSD.fNofCells) ∧
    ∃ sd2 t, runEvent .macroscopic 0 constructedSD [neutralIonisingStep, electronStep] = .ok sd2 ∧
      totalHit sd2 = some t ∧
      t.GetEdep = ((cellHits sd2).map (·.GetEdep)).sum ∧
      t.GetTrackLength = ((cellHits sd2).map (·.GetTrackLength)).sum ∧
      t.GetIonYield = wrapG4int ((cellHits sd2).map (·.GetIonYield)).sum :=
  ⟨⟨by decide, by decide⟩,
   last_hit_holds_cell_totals .macroscopic 0 constructedSD [neutralIonisingStep, electronStep]
     (by decide) (by decide)⟩

/-- C9: on a detector with one cell, after `Initialize` and any sequence of
`ProcessHits` calls whose layer number is 0, the collection has two hits and
the hit at index 0, which `EndOfEventAction` reads, equals the total hit at the
last index in energy deposit, track length and ion yield. -/
theorem hit_zero_eq_total_hit (v : Variant) (eventID : Int) (sd : CalorimeterSD)
    (steps : List G4Step) (hcells : sd.fNofCells = 1)
    (hzero : ∀ step ∈ steps, step.replicaNumber = 0) :
    ∃ sd2 h t, runEvent v eventID sd steps = .ok sd2 ∧ sd2.fHitsCollection.length = 2 ∧
      sd2.fHitsCollection[0]? = some h ∧ totalHit sd2 = some t ∧
      h.GetEdep = t.GetEdep ∧ h.GetTrackLength = t.GetTrackLength ∧
      h.GetIonYield = t.GetIonYield := by
  have hrun := runEvent_eq_foldl v eventID sd steps (by omega)
    (fun step hs _ => by have := hzero step hs; omega)
  have hrep : List.replicate (sd.fNofCells.toNat + 1) ({} : CalorHit) = [{}, {}] := by
    rw [hcells]; rfl
  rw [hrep] at hrun
  obtain ⟨h2, hfold⟩ := foldl_stepEffect_pair v steps {} hzero
  rw [hfold] at hrun
  exact ⟨_, h2, h2, hrun, rfl, rfl, rfl, rfl, rfl, rfl⟩

theorem hit_zero_eq_total_hit_witness :
    (constructedSD.fNofCells = 1 ∧
      ∀ step ∈ [neutralIonisingStep, electronStep], step.replicaNumber = 0) ∧
    ∃ sd2 h t, runEvent .macroscopic 0 constructedSD [neutralIonisingStep, electronStep] = .ok sd2 ∧
      sd2.fHitsCollection.length = 2 ∧
      sd2.fHitsCollection[0]? = some h ∧ totalHit sd2 = some t ∧
      h.GetEdep = t.GetEdep ∧ h.GetTrackLength = t.GetTrackLength ∧
      h.GetIonYield = t.GetIonYield :=
  ⟨⟨by decide, by decide⟩,
   hit_zero_eq_total_hit .macroscopic 0 constructedSD [neutralIonisingStep, electronStep]
     (by decide) (by decide)⟩

/-! ## Claims about the rows of the data file -/

/-- C10 (the code at a failing input): in the macroscopic variant an event of
one electron step depositing 1 keV appends a row whose energy field is 1000,
while the total energy deposit of the event expressed in keV is 1. -/
theorem macroscopic_row_energy_divided_twice :
    ((runEvent .macroscopic 0 constructedSD [electronStep]).bind (fun sd =>
        EventAction.EndOfEventAction .macroscopic 0 0 true { fSensitiveDetectorHCID := -1 }
          (eventAtEnd 0 0 sd) (outputsAfterHeader .macroscopic))).map (fun r => r.2.dataTxt)
      = .ok [.header "EventID;tEnergy(keV);IonYield\n",
             .row { separator := ";", eventID := 0, energy := 1000, ionYield := 1 }] ∧
    totalEnergyDepositSum [electronStep] / keV = 1 := by
  constructor
  · simp [runEvent, processSteps, CalorimeterSD.ProcessHits, CalorimeterSD.Initialize,
      constructedSD, electronStep, insertHits, energyDeposit, effectiveStepLength, hitAt,
      addAt, CalorHit.Add, ionizationCount, countLoop, isIonisationElectron, find,
      Except.bind, Except.map, EventAction.EndOfEventAction, EventAction.GetHitsCollection,
      eventAtEnd, outputsAfterHeader, headerLine, rowSeparator, rowUnit, keV,
      CalorHit.GetEdep, CalorHit.GetIonYield, CalorHit.GetTrackLength]
    decide
  · simp [totalEnergyDepositSum, electronStep, keV]

/-! ## The row of one event -/

theorem EndOfEventAction_of_hit (v : Variant) (collectionID printModulo : Int)
    (ea : EventAction) (event : G4Event) (out : Outputs) (hit : CalorHit)
    (hhit : hitZero (hitsCollectionIDUsed ea collectionID) event = some hit) :
    EventAction.EndOfEventAction v collectionID printModulo true ea event out
      = .ok ({ fSensitiveDetectorHCID := hitsCollectionIDUsed ea collectionID },
             { console :=
                 if printModulo > 0 ∧ Int.tmod event.eventID printModulo = 0 then
                   out.console ++ [.summary event.eventID hit.GetEdep hit.GetTrackLength]
                 else out.console
               histograms := out.histograms ++ [(0, hit.GetEdep), (1, hit.GetTrackLength)]
               ntuple := out.ntuple ++ [(hit.GetEdep, hit.GetTrackLength)]
               dataTxt := out.dataTxt ++ [rowFor v event.eventID hit] }) := by
  unfold hitZero at hhit
  cases hc : event.hitsCollection (hitsCollectionIDUsed ea collectionID) with
  | none => rw [hc] at hhit; cases hhit
  | some coll =>
    rw [hc] at hhit
    have hget : EventAction.GetHitsCollection
        (if ea.fSensitiveDetectorHCID = -1 then collectionID else ea.fSensitiveDetectorHCID)
        event = .ok coll := by
      have hc2 := hc
      unfold hitsCollectionIDUsed at hc2
      simp only [EventAction.GetHitsCollection, hc2]
    simp only [hhit] at hhit
    simp only [EventAction.EndOfEventAction, hget, hhit, if_true, hitsCollectionIDUsed, rowFor]

theorem getElem?_stepEffect_zero (v : Variant) (n : Nat) (hc : List CalorHit) (step : G4Step)
    (hlen : hc.length = n + 1) (hn : 0 < n) :
    (stepEffect v hc step)[0]?
      = (hc[0]?).map (fun h =>
          if isRecorded v step = true ∧ step.replicaNumber.toNat = 0 then
            h.Add (energyDeposit v step) (effectiveStepLength step) (ionizationCount step)
          else h) := by
  unfold stepEffect
  cases hrec : isRecorded v step with
  | false => simp
  | true =>
    have hlast : hc.length - 1 = n := by omega
    have hn0 : n ≠ 0 := by omega
    simp only [if_true, recordStep, hlast, true_and]
    rw [getElem?_addAt_ne _ _ _ _ _ _ hn0]
    by_cases hz : step.replicaNumber.toNat = 0
    · rw [hz, getElem?_addAt_self]
      simp
    · rw [getElem?_addAt_ne _ _ _ _ _ _ hz]
      simp [hz]

/-- The hit at index 0 after the steps of an event: its energy deposit. -/
theorem foldl_stepEffect_zero (v : Variant) (n : Nat) (hn : 0 < n) (steps : List G4Step) :
    ∀ (hc : List CalorHit) (h : CalorHit), hc.length = n + 1 → hc[0]? = some h →
      (∀ step ∈ steps, 0 ≤ step.replicaNumber) →
      ∃ h2, (steps.foldl (stepEffect v) hc)[0]? = some h2 ∧
        h2.fEdep = h.fEdep
          + ((steps.filter (fun step => decide (step.replicaNumber = 0))).map
              (energyDeposit v)).sum := by
  induction steps with
  | nil =>
    intro hc h _ hget _
    exact ⟨h, hget, by simp⟩
  | cons step rest ih =>
    intro hc h hlen hget hpos
    have hstep := getElem?_stepEffect_zero v n hc step hlen hn
    rw [hget] at hstep
    have hlen2 : (stepEffect v hc step).length = n + 1 := by rw [length_stepEffect, hlen]
    obtain ⟨h2, hget2, hsum⟩ := ih (stepEffect v hc step) _ hlen2 hstep
      (fun s hs => hpos s (List.mem_cons_of_mem _ hs))
    refine ⟨h2, by simpa [List.foldl_cons] using hget2, ?_⟩
    rw [hsum]
    have hnonneg := hpos step (List.mem_cons_self _ _)
    by_cases hz : step.replicaNumber = 0
    · have hz2 : step.replicaNumber.toNat = 0 := by omega
      cases hrec : isRecorded v step with
      | false => simp [hz, energyDeposit_of_ignored v step hrec]
      | true => simp [hz, hz2, CalorHit.Add]; ring
    · have hz2 : step.replicaNumber.toNat ≠ 0 := by omega
      simp [hz, hz2]

theorem layerZeroDepositSum_eq (steps : List G4Step) :
    ((steps.filter (fun step => decide (step.replicaNumber = 0))).map
        (energyDeposit .multiple)).sum = layerZeroDepositSum steps := by
  unfold layerZeroDepositSum
  congr 1

/-! ## Claims about the data file and the track file -/

/-- C11: in the multi-region variant, for an event whose collection holds the
hit `hit` at index 0, `EndOfEventAction` appends the row with the fields event
ID, `hit.GetEdep() / eV` and `hit.GetIonYield()` under the header that names
the second column "Energy_eV"; and for an event on a detector with at least
one cell and layer numbers in `0 .. fNofCells - 1`, the energy deposit of that
hit is the sum of `GetTotalEnergyDeposit()`, in internal units, over the steps
of layer 0. -/
theorem multiple_row_energy_in_eV (collectionID printModulo : Int) (ea : EventAction)
    (event : G4Event) (out : Outputs) (hit : CalorHit)
    (hhit : hitZero (hitsCollectionIDUsed ea collectionID) event = some hit) :
    (∃ ea2 out2,
      EventAction.EndOfEventAction .multiple collectionID printModulo true ea event out
        = .ok (ea2, out2) ∧
      out2.dataTxt = out.dataTxt ++
        [.row { separator := "\t", eventID := event.eventID,
                energy := hit.GetEdep / eV, ionYield := hit.GetIonYield }]) ∧
    headerLine .multiple = "EventID\tEnergy_eV\tIonYield\n" ∧
    (∀ (eventID : Int) (sd sd2 : CalorimeterSD) (steps : List G4Step), 1 ≤ sd.fNofCells →
      (∀ step ∈ steps, 0 ≤ step.replicaNumber ∧ step.replicaNumber < sd.fNofCells) →
      runEvent .multiple eventID sd steps = .ok sd2 →
      sd2.fHitsCollection[0]? = some hit →
      hit.GetEdep = layerZeroDepositSum steps) := by
  refine ⟨?_, rfl, ?_⟩
  · exact ⟨_, _,
      EndOfEventAction_of_hit .multiple collectionID printModulo ea event out hit hhit, rfl⟩
  · intro eventID sd sd2 steps hcells hvalid hrun hzero
    rw [runEvent_eq_foldl .multiple eventID sd steps (by omega)
      (fun step hs _ => hvalid step hs)] at hrun
    cases hrun
    have hfresh : (List.replicate (sd.fNofCells.toNat + 1) ({} : CalorHit))[0]?
        = some ({} : CalorHit) := by
      simp [List.getElem?_replicate]
    obtain ⟨h2, hget, hsum⟩ :=
      foldl_stepEffect_zero .multiple sd.fNofCells.toNat (by omega) steps _ _ (by simp) hfresh
        (fun step hs => (hvalid step hs).1)
    simp only at hzero
    rw [hget] at hzero
    cases hzero
    rw [CalorHit.GetEdep, hsum, layerZeroDepositSum_eq]
    simp

theorem multiple_row_energy_in_eV_witness :
    hitZero (hitsCollectionIDUsed { fSensitiveDetectorHCID := -1 } 0)
        (eventAtEnd 0 0 { fNofCells := 1, fHitsCollection := [{ fEdep := 1 / 1000 }, {}] })
      = some { fEdep := 1 / 1000 } ∧
    ∃ ea2 out2,
      EventAction.EndOfEventAction .multiple 0 0 true { fSensitiveDetectorHCID := -1 }
          (eventAtEnd 0 0 { fNofCells := 1, fHitsCollection := [{ fEdep := 1 / 1000 }, {}] })
          (outputsAfterHeader .multiple)
        = .ok (ea2, out2) ∧
      out2.dataTxt = (outputsAfterHeader .multiple).dataTxt ++
        [.row { separator := "\t", eventID := 0,
                energy := CalorHit.GetEdep { fEdep := 1 / 1000 } / eV, ionYield := 0 }] :=
  ⟨rfl,
   (multiple_row_energy_in_eV 0 0 { fSensitiveDetectorHCID := -1 }
      (eventAtEnd 0 0 { fNofCells := 1, fHitsCollection := [{ fEdep := 1 / 1000 }, {}] })
      (outputsAfterHeader .multiple) { fEdep := 1 / 1000 } rfl).1⟩

/-- C12: `BeginOfEventAction` leaves `data.txt` holding exactly the header
line when the event ID is 0, whatever the file held before, and leaves the
content unchanged for every other event ID; the header line is
"EventID;tEnergy(keV);IonYield\n" in the macroscopic variant and
"EventID\tEnergy_eV\tIonYield\n" in the multi-region variant. -/
theorem BeginOfEventAction_clears_on_first_event (v : Variant) (event : G4Event)
    (dataTxt : List FileLine) :
    (event.eventID = 0 →
      EventAction.BeginOfEventAction v event dataTxt = [.header (headerLine v)]) ∧
    (event.eventID ≠ 0 → EventAction.BeginOfEventAction v event dataTxt = dataTxt) ∧
    headerLine .macroscopic = "EventID;tEnergy(keV);IonYield\n" ∧
    headerLine .multiple = "EventID\tEnergy_eV\tIonYield\n" := by
  refine ⟨?_, ?_, rfl, rfl⟩
  · intro h0
    simp [EventAction.BeginOfEventAction, h0]
  · intro hne
    simp [EventAction.BeginOfEventAction, hne]

theorem BeginOfEventAction_clears_on_first_event_witness :
    EventAction.BeginOfEventAction .macroscopic
        { eventID := 0, hitsCollection := fun _ => none }
        [.header "old", .row { separator := ";", eventID := 7, energy := 3, ionYield := 2 }]
      = [.header "EventID;tEnergy(keV);IonYield\n"] ∧
    EventAction.BeginOfEventAction .multiple
        { eventID := 4, hitsCollection := fun _ => none }
        [.header "old", .row { separator := ";", eventID := 7, energy := 3, ionYield := 2 }]
      = [.header "old", .row { separator := ";", eventID := 7, energy := 3, ionYield := 2 }] :=
  ⟨(BeginOfEventAction_clears_on_first_event .macroscopic
      { eventID := 0, hitsCollection := fun _ => none }
      [.header "old", .row { separator := ";", eventID := 7, energy := 3, ionYield := 2 }]).1 rfl,
   (BeginOfEventAction_clears_on_first_event .multiple
      { eventID := 4, hitsCollection := fun _ => none }
      [.header "old", .row { separator := ";", eventID := 7, energy := 3, ionYield := 2 }]).2.1
      (by decide)⟩

/-! ## The data file along a run -/

theorem length_rowsFrom (v : Variant) (k : Int) (hits : List CalorHit) :
    (rowsFrom v k hits).length = hits.length := by
  induction hits generalizing k with
  | nil => rfl
  | cons hit rest ih => simp [rowsFrom, ih]

theorem getElem?_rowsFrom (v : Variant) (hits : List CalorHit) :
    ∀ (k : Int) (j : Nat),
      (rowsFrom v k hits)[j]? = (hits[j]?).map (fun hit => rowFor v (k + j) hit) := by
  induction hits with
  | nil => intro k j; simp [rowsFrom]
  | cons hit rest ih =>
    intro k j
    cases j with
    | zero => simp [rowsFrom]
    | succ j =>
      simp only [rowsFrom, List.getElem?_cons_succ, ih]
      congr 1
      funext h
      congr 1
      push_cast
      ring

theorem length_of_NumberedFrom (hcID : Int) (events : List G4Event) :
    ∀ (k : Int) (hits : List CalorHit), NumberedFrom hcID k events hits →
      hits.length = events.length := by
  induction events with
  | nil =>
    intro k hits h
    cases hits with
    | nil => rfl
    | cons _ _ => exact absurd h (by simp [NumberedFrom])
  | cons event rest ih =>
    intro k hits h
    cases hits with
    | nil => exact absurd h (by simp [NumberedFrom])
    | cons hit hits =>
      simp only [NumberedFrom] at h
      simp [ih (k + 1) hits h.2.2]

/-- Events with non-zero IDs append their rows to the file, one each. -/
theorem runEvents_appends_rows (v : Variant) (collectionID printModulo : Int)
    (events : List G4Event) :
    ∀ (k : Int) (hits : List CalorHit) (ea : EventAction) (out : Outputs), 0 < k →
      hitsCollectionIDUsed ea collectionID = collectionID →
      NumberedFrom collectionID k events hits →
      ∃ ea2 out2, runEvents v collectionID printModulo true ea events out = .ok (ea2, out2) ∧
        out2.dataTxt = out.dataTxt ++ rowsFrom v k hits := by
  induction events with
  | nil =>
    intro k hits ea out _ _ h
    cases hits with
    | nil => exact ⟨ea, out, rfl, by simp [rowsFrom]⟩
    | cons _ _ => exact absurd h (by simp [NumberedFrom])
  | cons event rest ih =>
    intro k hits ea out hk hid h
    cases hits with
    | nil => exact absurd h (by simp [NumberedFrom])
    | cons hit hits =>
      simp only [NumberedFrom] at h
      obtain ⟨hevent, hhit, hrest⟩ := h
      have hne : event.eventID ≠ 0 := by omega
      have hbegin : EventAction.BeginOfEventAction v event out.dataTxt = out.dataTxt := by
        simp [EventAction.BeginOfEventAction, hne]
      rw [← hid] at hhit
      have hend := EndOfEventAction_of_hit v collectionID printModulo ea event
        { out with dataTxt := EventAction.BeginOfEventAction v event out.dataTxt } hit hhit
      have hid2 : hitsCollectionIDUsed
          { fSensitiveDetectorHCID := hitsCollectionIDUsed ea collectionID } collectionID
          = collectionID := by
        rw [hid]
        simp [hitsCollectionIDUsed]
      obtain ⟨ea2, out2, hrun, hdata⟩ := ih (k + 1) hits _ _ (by omega) hid2 hrest
      refine ⟨ea2, out2, ?_, ?_⟩
      · simp only [runEvents, hend]
        exact hrun
      · rw [hdata, hbegin, hevent]
        simp [rowsFrom]

/-- C13: for a run of the events 0, 1, ..., n-1 in order (at least one event,
`data.txt` always openable, each event holding a hit at index 0 of its
collection), `data.txt` ends up as the header line followed by exactly n rows;
row k holds the three fields event ID k, energy and `GetIonYield()` of the hit
at index 0 of event k, with the separator that also separates the three column
names of the header; and each `EndOfEventAction` appends exactly one row to
the content it finds. -/
theorem data_file_after_run (v : Variant) (collectionID printModulo : Int) (ea : EventAction)
    (events : List G4Event) (hits : List CalorHit) (out : Outputs)
    (hne : events ≠ [])
    (hid : hitsCollectionIDUsed ea collectionID = collectionID)
    (hrun : NumberedFrom collectionID 0 events hits) :
    (∃ ea2 out2, runEvents v collectionID printModulo true ea events out = .ok (ea2, out2) ∧
      out2.dataTxt = .header (headerLine v) :: rowsFrom v 0 hits ∧
      (rowsFrom v 0 hits).length = events.length ∧
      ∀ (k : Nat) (hit : CalorHit), hits[k]? = some hit →
        out2.dataTxt[k + 1]?
          = some (.row { separator := rowSeparator v, eventID := k,
                         energy := hit.GetEdep / rowUnit v, ionYield := hit.GetIonYield })) ∧
    headerLine v
      = "EventID" ++ rowSeparator v ++ energyColumnName v ++ rowSeparator v ++ "IonYield\n" ∧
    (∀ (ea1 : EventAction) (event : G4Event) (out1 : Outputs) (hit : CalorHit),
      hitZero (hitsCollectionIDUsed ea1 collectionID) event = some hit →
      ∃ ea2 out2,
        EventAction.EndOfEventAction v collectionID printModulo true ea1 event out1
          = .ok (ea2, out2) ∧
        out2.dataTxt = out1.dataTxt ++
          [.row { separator := rowSeparator v, eventID := event.eventID,
                  energy := hit.GetEdep / rowUnit v, ionYield := hit.GetIonYield }]) := by
  refine ⟨?_, ?_, ?_⟩
  · cases events with
    | nil => exact absurd rfl hne
    | cons event rest =>
      cases hits with
      | nil => exact absurd hrun (by simp [NumberedFrom])
      | cons hit hits =>
        have hlen := length_of_NumberedFrom collectionID _ 0 _ hrun
        simp only [NumberedFrom] at hrun
        obtain ⟨hevent, hhit, hrest⟩ := hrun
        have hbegin : EventAction.BeginOfEventAction v event out.dataTxt
            = [.header (headerLine v)] := by
          simp [EventAction.BeginOfEventAction, hevent]
        rw [← hid] at hhit
        have hend := EndOfEventAction_of_hit v collectionID printModulo ea event
          { out with dataTxt := EventAction.BeginOfEventAction v event out.dataTxt } hit hhit
        have hid2 : hitsCollectionIDUsed
            { fSensitiveDetectorHCID := hitsCollectionIDUsed ea collectionID } collectionID
            = collectionID := by
          rw [hid]
          simp [hitsCollectionIDUsed]
        obtain ⟨ea2, out2, hrunRest, hdata⟩ :=
          runEvents_appends_rows v collectionID printModulo rest (0 + 1) hits _ _ (by omega)
            hid2 hrest
        have hrunAll : runEvents v collectionID printModulo true ea (event :: rest) out
            = .ok (ea2, out2) := by
          simp only [runEvents, hend]
          exact hrunRest
        have hfile : out2.dataTxt
            = .header (headerLine v) :: rowsFrom v 0 (hit :: hits) := by
          rw [hdata, hbegin, hevent]
          simp [rowsFrom]
        refine ⟨ea2, out2, hrunAll, hfile, ?_, ?_⟩
        · rw [length_rowsFrom, hlen]
        · intro k h hk
          rw [hfile, List.getElem?_cons_succ, getElem?_rowsFrom, hk]
          simp [rowFor]
  · cases v <;> decide
  · intro ea1 event out1 hit hhit
    exact ⟨_, _, EndOfEventAction_of_hit v collectionID printModulo ea1 event out1 hit hhit, rfl⟩

theorem data_file_after_run_witness :
    (sampleRun ≠ [] ∧
      hitsCollectionIDUsed { fSensitiveDetectorHCID := -1 } 0 = 0 ∧
      NumberedFrom 0 0 sampleRun [firstSampleHit, secondSampleHit]) ∧
    ∃ ea2 out2,
      runEvents .multiple 0 0 true { fSensitiveDetectorHCID := -1 } sampleRun
          { console := [], histograms := [], ntuple := [], dataTxt := [.header "old"] }
        = .ok (ea2, out2) ∧
      out2.dataTxt
        = .header (headerLine .multiple)
            :: rowsFrom .multiple 0 [firstSampleHit, secondSampleHit] :=
  ⟨⟨List.cons_ne_nil _ _, rfl, ⟨rfl, rfl, rfl, rfl, trivial⟩⟩,
   let ⟨ea2, out2, hrun, hfile, _⟩ :=
     (data_file_after_run .multiple 0 0 { fSensitiveDetectorHCID := -1 } sampleRun
        [firstSampleHit, secondSampleHit]
        { console := [], histograms := [], ntuple := [], dataTxt := [.header "old"] }
        (List.cons_ne_nil _ _) rfl ⟨rfl, rfl, rfl, rfl, trivial⟩).1
   ⟨ea2, out2, hrun, hfile⟩⟩

theorem emPhysicsFor_of_mem : ∀ p ∈ physicsTable, emPhysicsFor p.1 = some p.2 := by
  decide

theorem ite_beq_eq_some_cases {α : Type} (name literal : String) (k kind : α)
    (rest : Option α) (h : (if name == literal then some k else rest) = some kind) :
    (name = literal ∧ k = kind) ∨ rest = some kind := by
  by_cases hn : name = literal
  · left
    simp only [hn, beq_self_eq_true, if_true] at h
    exact ⟨hn, Option.some.inj h⟩
  · right
    have hb : (name == literal) = false := by simpa using hn
    simpa [hb] using h

theorem mem_physicsTable_of_emPhysicsFor (name : String) (kind : EmPhysics)
    (h : emPhysicsFor name = some kind) : (name, kind) ∈ physicsTable := by
  unfold emPhysicsFor at h
  iterate 14
    rcases ite_beq_eq_some_cases _ _ _ _ _ h with ⟨hn, hk⟩ | h2
    · subst hn; subst hk; decide
    clear h
    rename _ = some kind => h
  cases h

theorem emPhysicsFor_eq_none_iff (name : String) :
    emPhysicsFor name = none ↔ name ∉ recognisedNames := by
  constructor
  · intro hnone hmem
    obtain ⟨p, hp, hname⟩ := List.mem_map.mp hmem
    have := emPhysicsFor_of_mem p hp
    rw [hname, hnone] at this
    cases this
  · intro hnot
    cases h : emPhysicsFor name with
    | none => rfl
    | some kind =>
      exact absurd (List.mem_map.mpr ⟨(name, kind), mem_physicsTable_of_emPhysicsFor name kind h, rfl⟩)
        hnot

theorem fEmName_AddPhysicsList (pl : PhysicsList) (name : String) :
    (pl.AddPhysicsList name).fEmName
      = if name ∈ recognisedNames then name else pl.fEmName := by
  unfold PhysicsList.AddPhysicsList
  by_cases hcur : name = pl.fEmName
  · simp only [hcur, beq_self_eq_true, if_true]
    split <;> rfl
  · have hb : (name == pl.fEmName) = false := by simpa using hcur
    simp only [hb, Bool.false_eq_true, if_false]
    cases h : emPhysicsFor name with
    | none =>
      have := (emPhysicsFor_eq_none_iff name).mp h
      simp [this]
    | some kind =>
      have hmem : name ∈ recognisedNames :=
        List.mem_map.mpr ⟨(name, kind), mem_physicsTable_of_emPhysicsFor name kind h, rfl⟩
      simp [hmem]

theorem fEmName_foldl_AddPhysicsList (names : List String) :
    ∀ pl : PhysicsList,
      (names.foldl PhysicsList.AddPhysicsList pl).fEmName = lastAcceptedName pl.fEmName names := by
  induction names with
  | nil => intro pl; rfl
  | cons name rest ih =>
    intro pl
    rw [List.foldl_cons, ih, fEmName_AddPhysicsList]
    rfl

theorem lastAcceptedName_cases (names : List String) :
    ∀ current : String,
      lastAcceptedName current names = current ∨
        lastAcceptedName current names ∈ recognisedNames := by
  induction names with
  | nil => intro current; exact Or.inl rfl
  | cons name rest ih =>
    intro current
    simp only [lastAcceptedName]
    by_cases hmem : name ∈ recognisedNames
    · simp only [hmem, if_true]
      rcases ih name with h | h
      · rw [h]; exact Or.inr hmem
      · exact Or.inr h
    · simp only [hmem, if_false]
      exact ih current

theorem hasHadCustom_iff (name : String) :
    hasHadCustom name = true ↔ "hadCustom".toList <:+: name.toList :=
  find_isSome_iff _ _

theorem hasHadCustom_recognised :
    ∀ name ∈ recognisedNames,
      hasHadCustom name = true ↔ (name = "emStd4_hadCustom" ∨ name = "penelope_hadCustom") := by
  decide

theorem mem_hadronicLoop (a : ProcessAction) (particles : List String) :
    a ∈ hadronicLoop particles ↔ "proton" ∈ particles ∧ a ∈ protonHadronicActions := by
  induction particles with
  | nil => simp [hadronicLoop]
  | cons particleName rest ih =>
    simp only [hadronicLoop, List.mem_append, ih, List.mem_cons]
    by_cases hp : particleName = "proton"
    · subst hp
      simp [protonHadronicActions]
    · have hp2 : ¬ "proton" = particleName := fun h => hp h.symm
      simp [hadronicProcessesFor, hp, hp2]

theorem mem_AddTrackingCut (a : ProcessAction) (particles : List String) :
    a ∈ AddTrackingCut particles
      ↔ "e-" ∈ particles ∧ a = .RegisterProcess "G4UserSpecialCuts" "e-" := by
  induction particles with
  | nil => simp [AddTrackingCut]
  | cons particleName rest ih =>
    simp only [AddTrackingCut, List.mem_append, ih, List.mem_cons]
    by_cases hp : particleName = "e-"
    · subst hp
      simp
    · have hp2 : ¬ "e-" = particleName := fun h => hp h.symm
      simp [hp, hp2]

theorem mem_AddMaxStepSize (a : ProcessAction) (particles : List String) :
    a ∈ AddMaxStepSize particles
      ↔ "e-" ∈ particles ∧ a = .RegisterProcess "G4StepLimiter" "e-" := by
  induction particles with
  | nil => simp [AddMaxStepSize]
  | cons particleName rest ih =>
    simp only [AddMaxStepSize, List.mem_append, ih, List.mem_cons]
    by_cases hp : particleName = "e-"
    · subst hp
      simp
    · have hp2 : ¬ "e-" = particleName := fun h => hp h.symm
      simp [hp, hp2]

theorem mem_ConstructProcess_of_hadronic (pl : PhysicsList) (particles : List String)
    (a : ProcessAction) (ha : a ∈ protonHadronicActions) :
    a ∈ pl.ConstructProcess particles ↔ hasHadCustom pl.fEmName = true ∧ "proton" ∈ particles := by
  have hne : a ≠ .AddTransportation ∧ (∀ kind, a ≠ .emConstructProcess kind) ∧
      a ≠ .RegisterProcess "G4UserSpecialCuts" "e-" ∧
      a ≠ .RegisterProcess "G4StepLimiter" "e-" := by
    simp only [protonHadronicActions, hadronicProcessesFor, beq_self_eq_true, if_true,
      List.mem_cons, List.mem_singleton, List.not_mem_nil, or_false] at ha
    rcases ha with h | h | h | h | h <;> subst h <;>
      exact ⟨by simp, fun kind => by simp, by decide, by decide⟩
  simp only [PhysicsList.ConstructProcess, userHadronicProcesses, List.mem_append,
    List.mem_cons, List.mem_singleton, List.not_mem_nil, or_false, mem_AddTrackingCut,
    mem_AddMaxStepSize]
  cases hh : hasHadCustom pl.fEmName with
  | false => simp [hne.1, hne.2.1, hne.2.2.1, hne.2.2.2]
  | true => simp [hne.1, hne.2.1, hne.2.2.1, hne.2.2.2, mem_hadronicLoop, ha]

/-! ## Claims about the physics list -/

/-- C15: for a name of the table of the 14 recognised names that differs from
the current `fEmName`, `AddPhysicsList(name)` sets `fEmName` to the name and
replaces the EM physics list by a new object of the kind the table assigns,
the old object being deleted; a freshly constructed `PhysicsList` uses
`G4EmDNAPhysics_option4`. -/
theorem AddPhysicsList_selects_from_table (pl : PhysicsList) (name : String)
    (kind : EmPhysics) (initialName : String)
    (hmem : (name, kind) ∈ physicsTable) (hne : name ≠ pl.fEmName) :
    (pl.AddPhysicsList name).fEmName = name ∧
    (pl.AddPhysicsList name).fEmPhysicsList
      = { kind := kind, address := pl.allocatedObjects } ∧
    (pl.AddPhysicsList name).deletedObjects
      = pl.deletedObjects ++ [pl.fEmPhysicsList.address] ∧
    (PhysicsList.construct initialName).fEmPhysicsList.kind = .G4EmDNAPhysics_option4 ∧
    physicsTable.length = 14 ∧ recognisedNames.Nodup := by
  have hfor := emPhysicsFor_of_mem (name, kind) hmem
  have hb : (name == pl.fEmName) = false := by simpa using hne
  refine ⟨?_, ?_, ?_, rfl, rfl, by decide⟩
  all_goals
    simp only [PhysicsList.AddPhysicsList, hb, Bool.false_eq_true, if_false]
    simp only at hfor
    rw [hfor]

theorem AddPhysicsList_selects_from_table_witness :
    (("liv", EmPhysics.G4EmLivermorePhysics) ∈ physicsTable ∧
      "liv" ≠ (PhysicsList.construct "").fEmName) ∧
    ((PhysicsList.construct "").AddPhysicsList "liv").fEmName = "liv" ∧
    ((PhysicsList.construct "").AddPhysicsList "liv").fEmPhysicsList
      = { kind := .G4EmLivermorePhysics, address := 1 } ∧
    ((PhysicsList.construct "").AddPhysicsList "liv").deletedObjects = [0] :=
  ⟨⟨by decide, by decide⟩,
   (AddPhysicsList_selects_from_table (PhysicsList.construct "") "liv" .G4EmLivermorePhysics ""
      (by decide) (by decide)).1,
   (AddPhysicsList_selects_from_table (PhysicsList.construct "") "liv" .G4EmLivermorePhysics ""
      (by decide) (by decide)).2.1,
   (AddPhysicsList_selects_from_table (PhysicsList.construct "") "liv" .G4EmLivermorePhysics ""
      (by decide) (by decide)).2.2.1⟩

/-- C16 (as stated, refuted): on a physics list whose `fEmName` is the empty
string, `AddPhysicsList("")` is called with a name that is none of the 14
recognised names, and the only line written is the echo of the call: the name
is not reported as not defined. -/
theorem AddPhysicsList_current_name_not_reported :
    "" ∉ recognisedNames ∧
    ((PhysicsList.construct "").AddPhysicsList "").console
      = ["PhysicsList::AddPhysicsList: <>"] ∧
    "PhysicsList::AddPhysicsList: <> is not defined"
      ∉ ((PhysicsList.construct "").AddPhysicsList "").console := by
  decide

/-- C16 (amended): `AddPhysicsList(name)` with a name that is none of the 14
recognised names leaves the selection unchanged: `fEmName` and the EM physics
list object are as before and no object is deleted or allocated; when the name
differs from the current `fEmName` the last line written reports it as not
defined, and when it equals the current `fEmName` only the echo of the call is
written. -/
theorem AddPhysicsList_unrecognised (pl : PhysicsList) (name : String)
    (hnot : name ∉ recognisedNames) :
    (pl.AddPhysicsList name).fEmName = pl.fEmName ∧
    (pl.AddPhysicsList name).fEmPhysicsList = pl.fEmPhysicsList ∧
    (pl.AddPhysicsList name).deletedObjects = pl.deletedObjects ∧
    (pl.AddPhysicsList name).allocatedObjects = pl.allocatedObjects ∧
    (name ≠ pl.fEmName →
      (pl.AddPhysicsList name).console
        = (if pl.verboseLevel > -1 then
            pl.console ++ ["PhysicsList::AddPhysicsList: <" ++ name ++ ">"]
           else pl.console)
          ++ ["PhysicsList::AddPhysicsList: <" ++ name ++ "> is not defined"]) ∧
    (name = pl.fEmName →
      (pl.AddPhysicsList name).console
        = (if pl.verboseLevel > -1 then
            pl.console ++ ["PhysicsList::AddPhysicsList: <" ++ name ++ ">"]
           else pl.console)) := by
  have hnone := (emPhysicsFor_eq_none_iff name).mpr hnot
  by_cases hcur : name = pl.fEmName
  · have hb : (name == pl.fEmName) = true := by simpa using hcur
    refine ⟨?_, ?_, ?_, ?_, fun h => absurd hcur h, fun _ => ?_⟩
    all_goals simp only [PhysicsList.AddPhysicsList, hb, if_true]
  · have hb : (name == pl.fEmName) = false := by simpa using hcur
    refine ⟨?_, ?_, ?_, ?_, fun _ => ?_, fun h => absurd h hcur⟩
    all_goals simp only [PhysicsList.AddPhysicsList, hb, Bool.false_eq_true, if_false, hnone]

theorem AddPhysicsList_unrecognised_witness :
    "geant" ∉ recognisedNames ∧
    ((PhysicsList.construct "").AddPhysicsList "geant").fEmName = "" ∧
    ((PhysicsList.construct "").AddPhysicsList "geant").fEmPhysicsList
      = { kind := .G4EmDNAPhysics_option4, address := 0 } ∧
    ((PhysicsList.construct "").AddPhysicsList "geant").deletedObjects = [] :=
  ⟨by decide,
   (AddPhysicsList_unrecognised (PhysicsList.construct "") "geant" (by decide)).1,
   (AddPhysicsList_unrecognised (PhysicsList.construct "") "geant" (by decide)).2.1,
   (AddPhysicsList_unrecognised (PhysicsList.construct "") "geant" (by decide)).2.2.1⟩

/-- C17: with the proton and the electron among the particles of the particle
iterator, `ConstructProcess` makes the calls of the user-defined hadronic
processes if and only if `fEmName` contains the substring "hadCustom", and
makes none of them otherwise; after any sequence of `AddPhysicsList` calls
from an initial `fEmName` without "hadCustom", `fEmName` is the last accepted
name (or the initial one), and it contains "hadCustom" exactly when that name
is "emStd4_hadCustom" or "penelope_hadCustom"; transportation, the processes
of the EM list, the tracking cut and the maximum step size are added in every
case. -/
theorem ConstructProcess_hadronic_iff_hadCustom (pl pl0 : PhysicsList)
    (names particles : List String)
    (hinit : ¬ "hadCustom".toList <:+: pl0.fEmName.toList)
    (hproton : "proton" ∈ particles) (helectron : "e-" ∈ particles) :
    ((∀ a ∈ protonHadronicActions, a ∈ pl.ConstructProcess particles)
      ↔ "hadCustom".toList <:+: pl.fEmName.toList) ∧
    (¬ "hadCustom".toList <:+: pl.fEmName.toList →
      ∀ a ∈ protonHadronicActions, a ∉ pl.ConstructProcess particles) ∧
    (names.foldl PhysicsList.AddPhysicsList pl0).fEmName
      = lastAcceptedName pl0.fEmName names ∧
    ("hadCustom".toList <:+: (names.foldl PhysicsList.AddPhysicsList pl0).fEmName.toList
      ↔ (lastAcceptedName pl0.fEmName names = "emStd4_hadCustom" ∨
          lastAcceptedName pl0.fEmName names = "penelope_hadCustom")) ∧
    (.AddTransportation ∈ pl.ConstructProcess particles ∧
      .emConstructProcess pl.fEmPhysicsList.kind ∈ pl.ConstructProcess particles ∧
      .RegisterProcess "G4UserSpecialCuts" "e-" ∈ pl.ConstructProcess particles ∧
      .RegisterProcess "G4StepLimiter" "e-" ∈ pl.ConstructProcess particles) := by
  refine ⟨?_, ?_, fEmName_foldl_AddPhysicsList names pl0, ?_, ?_⟩
  · rw [← hasHadCustom_iff]
    constructor
    · intro hall
      have hfirst : ProcessAction.hadronElasticConstructProcess ∈ protonHadronicActions := by
        decide
      exact ((mem_ConstructProcess_of_hadronic pl particles _ hfirst).mp (hall _ hfirst)).1
    · intro hhad a ha
      exact (mem_ConstructProcess_of_hadronic pl particles a ha).mpr ⟨hhad, hproton⟩
  · intro hno a ha hmem
    rw [← hasHadCustom_iff] at hno
    exact hno ((mem_ConstructProcess_of_hadronic pl particles a ha).mp hmem).1
  · rw [fEmName_foldl_AddPhysicsList, ← hasHadCustom_iff]
    rcases lastAcceptedName_cases names pl0.fEmName with h | h
    · rw [h]
      rw [← hasHadCustom_iff] at hinit
      constructor
      · intro hh; exact absurd hh hinit
      · intro hh
        exfalso
        apply hinit
        rcases hh with hh | hh <;> rw [hh] <;> decide
    · exact hasHadCustom_recognised _ h
  · simp only [PhysicsList.ConstructProcess, List.mem_append, List.mem_cons,
      mem_AddTrackingCut, mem_AddMaxStepSize]
    simp [helectron]

theorem ConstructProcess_hadronic_iff_hadCustom_witness :
    (¬ "hadCustom".toList <:+: (PhysicsList.construct "").fEmName.toList ∧
      "proton" ∈ ["gamma", "e-", "proton"] ∧ "e-" ∈ ["gamma", "e-", "proton"]) ∧
    ((∀ a ∈ protonHadronicActions,
        a ∈ ((PhysicsList.construct "").AddPhysicsList "penelope_hadCustom").ConstructProcess
              ["gamma", "e-", "proton"])
      ↔ "hadCustom".toList <:+:
          ((PhysicsList.construct "").AddPhysicsList "penelope_hadCustom").fEmName.toList) ∧
    (["liv", "penelope_hadCustom", "geant"].foldl PhysicsList.AddPhysicsList
        (PhysicsList.construct "")).fEmName
      = lastAcceptedName (PhysicsList.construct "").fEmName
          ["liv", "penelope_hadCustom", "geant"] :=
  ⟨⟨by decide, by decide, by decide⟩,
   (ConstructProcess_hadronic_iff_hadCustom
      ((PhysicsList.construct "").AddPhysicsList "penelope_hadCustom")
      (PhysicsList.construct "") ["liv", "penelope_hadCustom", "geant"]
      ["gamma", "e-", "proton"] (by decide) (by decide) (by decide)).1,
   (ConstructProcess_hadronic_iff_hadCustom
      ((PhysicsList.construct "").AddPhysicsList "penelope_hadCustom")
      (PhysicsList.construct "") ["liv", "penelope_hadCustom", "geant"]
      ["gamma", "e-", "proton"] (by decide) (by decide) (by decide)).2.2.1⟩

/-! ## Access to the hits -/

theorem processSteps_ok_shape (v : Variant) (eventID : Int) (steps : List G4Step) :
    ∀ sd sd2 : CalorimeterSD, processSteps v eventID sd steps = .ok sd2 →
      sd2.fNofCells = sd.fNofCells ∧
      sd2.fHitsCollection.length = sd.fHitsCollection.length := by
  induction steps with
  | nil =>
    intro sd sd2 h
    simp only [processSteps] at h
    cases h
    exact ⟨rfl, rfl⟩
  | cons step rest ih =>
    intro sd sd2 h
    simp only [processSteps] at h
    cases hcall : sd.ProcessHits v eventID step with
    | error e => rw [hcall] at h; cases h
    | ok r =>
      rw [hcall] at h
      obtain ⟨_, hsd, _⟩ := ProcessHits_ok_inv v eventID sd step r hcall
      obtain ⟨hcells, hlen⟩ := ih r.sd sd2 h
      rw [hsd] at hcells hlen
      exact ⟨hcells, by rw [hlen]; exact length_stepEffect v _ step⟩

theorem runEvent_ok_shape (v : Variant) (eventID : Int) (sd0 sd : CalorimeterSD)
    (steps : List G4Step) (hn : 0 ≤ sd0.fNofCells) (hrun : runEvent v eventID sd0 steps = .ok sd) :
    sd.fNofCells = sd0.fNofCells ∧
    sd.fHitsCollection.length = sd0.fNofCells.toNat + 1 := by
  obtain ⟨hcells, hlen⟩ := processSteps_ok_shape v eventID steps _ _ hrun
  refine ⟨hcells, ?_⟩
  rw [hlen, Initialize_hits, List.length_replicate]
  omega

/-! ## Claims about the access to collections and hits -/

/-- C18: `GetHitsCollection(hcID, event)` raises the fatal exception
"MyCode0003" if and only if the event holds no hits collection under `hcID`;
otherwise it returns exactly the collection stored under `hcID`; it fails in
no other way. -/
theorem GetHitsCollection_fatal_iff_null (hcID : Int) (event : G4Event) :
    (EventAction.GetHitsCollection hcID event = .error (.fatalException "MyCode0003")
      ↔ event.hitsCollection hcID = none) ∧
    (∀ hc, event.hitsCollection hcID = some hc →
      EventAction.GetHitsCollection hcID event = .ok hc) ∧
    (∀ hc, EventAction.GetHitsCollection hcID event = .ok hc →
      event.hitsCollection hcID = some hc) ∧
    (∀ e, EventAction.GetHitsCollection hcID event = .error e →
      e = .fatalException "MyCode0003") := by
  unfold EventAction.GetHitsCollection
  cases h : event.hitsCollection hcID with
  | none =>
    refine ⟨by simp, by simp, by simp, ?_⟩
    intro e he
    simp only at he
    cases he
    rfl
  | some hc =>
    refine ⟨by simp, ?_, ?_, by simp⟩
    · intro hc2 h2
      cases h2
      rfl
    · intro hc2 h2
      simp only at h2
      cases h2
      rfl

theorem GetHitsCollection_fatal_iff_null_witness :
    EventAction.GetHitsCollection 3 (eventAtEnd 0 0 constructedSD.Initialize)
      = .error (.fatalException "MyCode0003") ∧
    EventAction.GetHitsCollection 0 (eventAtEnd 0 0 constructedSD.Initialize)
      = .ok constructedSD.Initialize.fHitsCollection :=
  ⟨(GetHitsCollection_fatal_iff_null 3 (eventAtEnd 0 0 constructedSD.Initialize)).1.mpr rfl,
   (GetHitsCollection_fatal_iff_null 0 (eventAtEnd 0 0 constructedSD.Initialize)).2.1 _ rfl⟩

/-- C19: in a collection as `Initialize` and earlier `ProcessHits` calls leave
it, a step that is not ignored and whose layer number equals `fNofCells` is
accepted by `ProcessHits`; the cell hit and the total hit are the same hit, so
the call adds the energy deposit, the step length and the ionization count of
the step to the total hit twice and changes no cell hit. -/
theorem ProcessHits_layer_eq_nofCells (v : Variant) (eventID : Int) (sd0 sd : CalorimeterSD)
    (steps : List G4Step) (step : G4Step) (hn : 0 ≤ sd0.fNofCells)
    (hrun : runEvent v eventID sd0 steps = .ok sd)
    (hrec : isRecorded v step = true) (hlayer : step.replicaNumber = sd.fNofCells) :
    ∃ r t, sd.ProcessHits v eventID step = .ok r ∧ r.value = true ∧
      totalHit sd = some t ∧ hitAt sd.fHitsCollection step.replicaNumber = some t ∧
      totalHit r.sd
        = some ((t.Add (energyDeposit v step) (effectiveStepLength step)
                  (ionizationCount step)).Add
                (energyDeposit v step) (effectiveStepLength step) (ionizationCount step)) ∧
      (∀ t2, totalHit r.sd = some t2 →
        t2.GetEdep = t.GetEdep + 2 * energyDeposit v step ∧
        t2.GetTrackLength = t.GetTrackLength + 2 * effectiveStepLength step ∧
        t2.GetIonYield = wrapG4int (t.GetIonYield + 2 * ionizationCount step)) ∧
      cellHits r.sd = cellHits sd := by
  obtain ⟨hcells, hlen⟩ := runEvent_ok_shape v eventID sd0 sd steps hn hrun
  have hidx : step.replicaNumber.toNat = sd0.fNofCells.toNat := by rw [hlayer, hcells]
  have hlast : sd.fHitsCollection.length - 1 = sd0.fNofCells.toNat := by omega
  have hlt : sd0.fNofCells.toNat < sd.fHitsCollection.length := by omega
  have hok := ProcessHits_of_recorded v eventID sd step hrec (by omega) (by omega)
  have htotal : totalHit sd = some sd.fHitsCollection[sd0.fNofCells.toNat] := by
    simp only [totalHit, hlast]
    exact List.getElem?_eq_getElem hlt
  have hdouble : totalHit
      { sd with fHitsCollection := recordStep v sd.fHitsCollection step }
      = some ((sd.fHitsCollection[sd0.fNofCells.toNat].Add (energyDeposit v step)
                (effectiveStepLength step) (ionizationCount step)).Add
              (energyDeposit v step) (effectiveStepLength step) (ionizationCount step)) := by
    simp only [totalHit, recordStep, length_addAt, hlast, hidx]
    rw [getElem?_addAt_self, getElem?_addAt_self, List.getElem?_eq_getElem hlt]
    rfl
  refine ⟨_, sd.fHitsCollection[sd0.fNofCells.toNat], hok, rfl, htotal, ?_, hdouble, ?_, ?_⟩
  · have h0 : 0 ≤ step.replicaNumber := by omega
    simp only [hitAt, h0, if_true, hidx]
    exact List.getElem?_eq_getElem hlt
  · intro t2 ht2
    rw [hdouble] at ht2
    cases ht2
    refine ⟨?_, ?_, ?_⟩
    · simp only [CalorHit.GetEdep, CalorHit.Add]; ring
    · simp only [CalorHit.GetTrackLength, CalorHit.Add]; ring
    · simp only [CalorHit.GetIonYield, CalorHit.Add]
      rw [wrapG4int_wrap_add]
      congr 1; ring
  · simp only [cellHits, recordStep, hlast, hidx, hcells]
    rw [take_addAt_of_le _ _ _ _ _ _ (Nat.le_refl _), take_addAt_of_le _ _ _ _ _ _ (Nat.le_refl _)]

theorem ProcessHits_layer_eq_nofCells_witness :
    ((0 : Int) ≤ constructedSD.fNofCells ∧
      runEvent .multiple 0 constructedSD [] = .ok constructedSD.Initialize ∧
      isRecorded .multiple electronStepInReplicaOne = true ∧
      electronStepInReplicaOne.replicaNumber = constructedSD.Initialize.fNofCells) ∧
    ∃ r, constructedSD.Initialize.ProcessHits .multiple 0 electronStepInReplicaOne = .ok r ∧
      r.value = true ∧ cellHits r.sd = cellHits constructedSD.Initialize :=
  ⟨⟨by decide, rfl,
     by simp [isRecorded, energyDeposit, electronStepInReplicaOne, electronStep], rfl⟩,
   let ⟨r, _, hok, hvalue, _, _, _, _, hcells⟩ :=
     ProcessHits_layer_eq_nofCells .multiple 0 constructedSD constructedSD.Initialize []
       electronStepInReplicaOne (by decide) rfl
       (by simp [isRecorded, energyDeposit, electronStepInReplicaOne, electronStep]) rfl
   ⟨r, hok, hvalue, hcells⟩⟩

/-- C20: on a detector with `fNofCells ≥ 0`, after `Initialize` and any
`ProcessHits` calls that returned, the collection is not empty, so
`entries() - 1` is the index of its last hit, and for a step with
`0 ≤ layerNumber ≤ fNofCells` the lookup at `layerNumber` and the lookup at
`entries() - 1` both yield a hit: `ProcessHits` returns and the fatal branch
"MyCode0004" is not taken. -/
theorem ProcessHits_lookups_in_range (v : Variant) (eventID : Int) (sd0 sd : CalorimeterSD)
    (steps : List G4Step) (step : G4Step) (hn : 0 ≤ sd0.fNofCells)
    (hrun : runEvent v eventID sd0 steps = .ok sd)
    (hlo : 0 ≤ step.replicaNumber) (hhi : step.replicaNumber ≤ sd.fNofCells) :
    0 < sd.fHitsCollection.length ∧
    (step.replicaNumber.toNat < sd.fHitsCollection.length ∧
      ∃ hit, hitAt sd.fHitsCollection step.replicaNumber = some hit) ∧
    (sd.fHitsCollection.length - 1 < sd.fHitsCollection.length ∧
      ∃ t, totalHit sd = some t) ∧
    sd.ProcessHits v eventID step ≠ .error (.fatalException "MyCode0004") ∧
    ∃ r, sd.ProcessHits v eventID step = .ok r := by
  obtain ⟨hcells, hlen⟩ := runEvent_ok_shape v eventID sd0 sd steps hn hrun
  have hlt : step.replicaNumber.toNat < sd.fHitsCollection.length := by omega
  have hlast : sd.fHitsCollection.length - 1 < sd.fHitsCollection.length := by omega
  have hreturns : ∃ r, sd.ProcessHits v eventID step = .ok r := by
    cases hrec : isRecorded v step with
    | false => exact ⟨_, ProcessHits_of_ignored v eventID sd step hrec⟩
    | true => exact ⟨_, ProcessHits_of_recorded v eventID sd step hrec hlo (by omega)⟩
  refine ⟨by omega, ⟨hlt, sd.fHitsCollection[step.replicaNumber.toNat], ?_⟩,
    ⟨hlast, sd.fHitsCollection[sd.fHitsCollection.length - 1], ?_⟩, ?_, hreturns⟩
  · simp only [hitAt, hlo, if_true]
    exact List.getElem?_eq_getElem hlt
  · simp only [totalHit]
    exact List.getElem?_eq_getElem hlast
  · obtain ⟨r, hr⟩ := hreturns
    rw [hr]
    intro h
    cases h

theorem ProcessHits_lookups_in_range_witness :
    ((0 : Int) ≤ constructedSD.fNofCells ∧
      runEvent .multiple 0 constructedSD [electronStep]
        = .ok { fNofCells := 1, fHitsCollection := [firstSampleHit, firstSampleHit] } ∧
      (0 : Int) ≤ electronStepInReplicaOne.replicaNumber ∧
      electronStepInReplicaOne.replicaNumber ≤ 1) ∧
    ∃ r, CalorimeterSD.ProcessHits .multiple 0
        { fNofCells := 1, fHitsCollection := [firstSampleHit, firstSampleHit] }
        electronStepInReplicaOne = .ok r :=
  have hrun : runEvent .multiple 0 constructedSD [electronStep]
      = .ok { fNofCells := 1, fHitsCollection := [firstSampleHit, firstSampleHit] } := by
    simp [runEvent, processSteps, CalorimeterSD.ProcessHits, CalorimeterSD.Initialize,
      constructedSD, electronStep, insertHits, energyDeposit, effectiveStepLength, hitAt,
      addAt, CalorHit.Add, ionizationCount, countLoop, isIonisationElectron, find,
      firstSampleHit]
    decide
  ⟨⟨by decide, hrun, by decide, by decide⟩,
   (ProcessHits_lookups_in_range .multiple 0 constructedSD _ [electronStep]
      electronStepInReplicaOne (by decide) hrun (by decide) (by decide)).2.2.2.2⟩

/-! ## The per-event summary -/

theorem EndOfEventAction_result (v : Variant) (collectionID printModulo : Int)
    (fileOpens : Bool) (ea : EventAction) (event : G4Event) (out : Outputs) (hit : CalorHit)
    (hhit : hitZero (hitsCollectionIDUsed ea collectionID) event = some hit) :
    EventAction.EndOfEventAction v collectionID printModulo fileOpens ea event out
      = .ok ({ fSensitiveDetectorHCID := hitsCollectionIDUsed ea collectionID },
             { console :=
                 (if printModulo > 0 ∧ Int.tmod event.eventID printModulo = 0 then
                   out.console ++ [.summary event.eventID hit.GetEdep hit.GetTrackLength]
                  else out.console)
                 ++ (if fileOpens then [] else [.fileError])
               histograms := out.histograms ++ [(0, hit.GetEdep), (1, hit.GetTrackLength)]
               ntuple := out.ntuple ++ [(hit.GetEdep, hit.GetTrackLength)]
               dataTxt :=
                 if fileOpens then out.dataTxt ++ [rowFor v event.eventID hit]
                 else out.dataTxt }) := by
  unfold hitZero at hhit
  cases hc : event.hitsCollection (hitsCollectionIDUsed ea collectionID) with
  | none => rw [hc] at hhit; cases hhit
  | some coll =>
    rw [hc] at hhit
    have hget : EventAction.GetHitsCollection
        (if ea.fSensitiveDetectorHCID = -1 then collectionID else ea.fSensitiveDetectorHCID)
        event = .ok coll := by
      have hc2 := hc
      unfold hitsCollectionIDUsed at hc2
      simp only [EventAction.GetHitsCollection, hc2]
    simp only [hhit] at hhit
    cases fileOpens <;>
      simp [EventAction.EndOfEventAction, hget, hhit, hitsCollectionIDUsed, rowFor]

theorem summaryCondition_eq (eventID printModulo : Int) :
    summaryCondition eventID printModulo
      = some (decide (printModulo > 0 ∧ printModulo ∣ eventID)) := by
  unfold summaryCondition remainderG4int
  by_cases hpos : printModulo > 0
  · have hne : printModulo ≠ 0 := by omega
    simp only [hpos, if_true, hne, if_false, true_and]
    congr 1
    by_cases hr : Int.tmod eventID printModulo = 0
    · have hd : printModulo ∣ eventID := Int.dvd_of_tmod_eq_zero hr
      simp [hr, hd]
    · have hd : ¬ printModulo ∣ eventID := fun h => hr (Int.tmod_eq_zero_of_dvd h)
      simp [hr, hd]
  · simp [hpos]

/-! ## Claims about the per-event summary -/

/-- C21: for an event whose collection holds a hit at index 0,
`EndOfEventAction` returns and prints the per-event summary if and only if
`printModulo > 0` and the event ID is a multiple of `printModulo`; the guarded
condition always has a value, so the remainder is not taken with
`printModulo = 0`; and the two histogram entries and the ntuple row are filled
for every such event, as is the row of `data.txt` whenever the file opens,
whether or not the summary is printed. -/
theorem summary_printed_iff_multiple (v : Variant) (collectionID printModulo : Int)
    (fileOpens : Bool) (ea : EventAction) (event : G4Event) (out : Outputs) (hit : CalorHit)
    (hhit : hitZero (hitsCollectionIDUsed ea collectionID) event = some hit) :
    (summaryCondition event.eventID printModulo
        = some (decide (printModulo > 0 ∧ printModulo ∣ event.eventID)) ∧
      remainderG4int event.eventID 0 = none ∧
      summaryCondition event.eventID 0 = some false) ∧
    ∃ ea2 out2 printed,
      EventAction.EndOfEventAction v collectionID printModulo fileOpens ea event out
        = .ok (ea2, out2) ∧
      out2.console = out.console ++ printed ∧
      (.summary event.eventID hit.GetEdep hit.GetTrackLength ∈ printed
        ↔ printModulo > 0 ∧ printModulo ∣ event.eventID) ∧
      (.summary event.eventID hit.GetEdep hit.GetTrackLength ∈ printed
        ↔ summaryCondition event.eventID printModulo = some true) ∧
      out2.histograms = out.histograms ++ [(0, hit.GetEdep), (1, hit.GetTrackLength)] ∧
      out2.ntuple = out.ntuple ++ [(hit.GetEdep, hit.GetTrackLength)] ∧
      (fileOpens = true → out2.dataTxt = out.dataTxt ++ [rowFor v event.eventID hit]) := by
  have hcond := summaryCondition_eq event.eventID printModulo
  refine ⟨⟨hcond, rfl, rfl⟩, ?_⟩
  have hres := EndOfEventAction_result v collectionID printModulo fileOpens ea event out hit hhit
  have hiff : (printModulo > 0 ∧ Int.tmod event.eventID printModulo = 0)
      ↔ (printModulo > 0 ∧ printModulo ∣ event.eventID) := by
    rw [Int.dvd_iff_tmod_eq_zero]
  have hmem : (.summary event.eventID hit.GetEdep hit.GetTrackLength
        ∈ (if printModulo > 0 ∧ Int.tmod event.eventID printModulo = 0 then
            [ConsoleLine.summary event.eventID hit.GetEdep hit.GetTrackLength] else [])
          ++ (if fileOpens then [] else [ConsoleLine.fileError]))
      ↔ (printModulo > 0 ∧ printModulo ∣ event.eventID) := by
    rw [← hiff]
    by_cases hc : printModulo > 0 ∧ Int.tmod event.eventID printModulo = 0
    · simp [hc]
    · cases fileOpens <;> simp [hc]
  refine ⟨_, _,
    (if printModulo > 0 ∧ Int.tmod event.eventID printModulo = 0 then
        [ConsoleLine.summary event.eventID hit.GetEdep hit.GetTrackLength] else [])
      ++ (if fileOpens then [] else [ConsoleLine.fileError]),
    hres, ?_, hmem, ?_, rfl, rfl, ?_⟩
  · by_cases hc : printModulo > 0 ∧ Int.tmod event.eventID printModulo = 0
    · simp [hc]
    · simp [hc]
  · rw [hmem, hcond]
    simp
  · intro hopen
    simp [hopen]

theorem summary_printed_iff_multiple_witness :
    hitZero (hitsCollectionIDUsed { fSensitiveDetectorHCID := -1 } 0)
        (eventAtEnd 4 0 { fNofCells := 1, fHitsCollection := [firstSampleHit, firstSampleHit] })
      = some firstSampleHit ∧
    summaryCondition 4 2 = some true ∧
    summaryCondition 4 0 = some false ∧
    ∃ ea2 out2 printed,
      EventAction.EndOfEventAction .multiple 0 0 true { fSensitiveDetectorHCID := -1 }
          (eventAtEnd 4 0 { fNofCells := 1, fHitsCollection := [firstSampleHit, firstSampleHit] })
          (outputsAfterHeader .multiple)
        = .ok (ea2, out2) ∧
      out2.console = (outputsAfterHeader .multiple).console ++ printed ∧
      (.summary 4 firstSampleHit.GetEdep firstSampleHit.GetTrackLength ∈ printed
        ↔ (0 : Int) > 0 ∧ (0 : Int) ∣ 4) ∧
      out2.histograms = (outputsAfterHeader .multiple).histograms
        ++ [(0, firstSampleHit.GetEdep), (1, firstSampleHit.GetTrackLength)] ∧
      out2.ntuple = (outputsAfterHeader .multiple).ntuple
        ++ [(firstSampleHit.GetEdep, firstSampleHit.GetTrackLength)] :=
  ⟨rfl, by decide, by decide,
   let ⟨ea2, out2, printed, hok, hconsole, hprint, _, hhist, hntuple, _⟩ :=
     (summary_printed_iff_multiple .multiple 0 0 true { fSensitiveDetectorHCID := -1 }
        (eventAtEnd 4 0 { fNofCells := 1, fHitsCollection := [firstSampleHit, firstSampleHit] })
        (outputsAfterHeader .multiple) firstSampleHit rfl).2
   ⟨ea2, out2, printed, hok, hconsole, hprint, hhist, hntuple⟩⟩

end B4c
